import Mathlib

/-!
Shallow embedding of the rbolt B+tree storage engine
(src/page.rs, src/search.rs, src/btree.rs, src/db.rs).

Byte buffers (pages, the memory-mapped file, keys, values) are modelled
by the type Buf: a length together with a byte-valued function on
indices, reading as 0 beyond the length.  This is extensionally the
byte-string model; it is chosen over plain lists so that concrete
executions reduce without deep recursion.  Observations in theorem
statements go through Buf.toList.  Multi-byte fields are native-endian,
modelled little-endian.  Machine-integer truncation is explicit.

Rust panics (slice-range violations, usize underflow in debug builds,
out-of-bounds Vec indexing, and divergence on corrupt cyclic page
graphs, which aborts via stack overflow) are modelled by the
distinguished outcome RErr.panic; Result errors are modelled by
RErr.btree.  Fallible byte operations carry explicit bounds checks
exactly where the Rust code would panic.
-/

set_option maxRecDepth 60000

namespace RBolt

/-- Byte strings as lists, used for literals and observations. -/
abbrev Bytes := List Nat

/-- A byte buffer: size plus contents.  Reading past the end yields 0
(never exercised on checked paths). -/
structure Buf where
  size : Nat
  fn : Nat → Nat

/-- Read one byte. -/
def Buf.get (b : Buf) (i : Nat) : Nat := if i < b.size then b.fn i else 0

/-- Buffer from a byte list. -/
def bs (l : Bytes) : Buf := ⟨l.length, fun i => l.getD i 0⟩

/-- The all-v buffer of a given size (vec of repeated bytes). -/
def Buf.repl (n v : Nat) : Buf := ⟨n, fun _ => v⟩

/-- First n bytes (list take semantics). -/
def Buf.take (b : Buf) (n : Nat) : Buf := ⟨min n b.size, b.get⟩

/-- All but the first n bytes (list drop semantics). -/
def Buf.drop (b : Buf) (n : Nat) : Buf := ⟨b.size - n, fun i => b.get (n + i)⟩

/-- Concatenation (file growth). -/
def Buf.append (a b : Buf) : Buf :=
  ⟨a.size + b.size, fun i => if i < a.size then a.get i else b.get (i - a.size)⟩

/-- Observe a buffer as a byte list. -/
def Buf.toList (b : Buf) : Bytes := (List.range b.size).map b.get

/-- Overwrite dst starting at off with src (callers check bounds). -/
def writeBytes (dst : Buf) (off : Nat) (src : Buf) : Buf :=
  ⟨dst.size, fun i => if off ≤ i ∧ i < off + src.size then src.get (i - off) else dst.get i⟩

/-! ## Constants (db.rs, page.rs) -/

def PAGE_SIZE : Nat := 4096
def PAGE_HEADER_SIZE : Nat := 16
/-- PAGE_SIZE minus the 16-byte page header (size_of Page in page.rs). -/
def PAGE_BODY_SIZE : Nat := 4080
def LEAF_ELEMENT_SIZE : Nat := 8
def BRANCH_ELEMENT_SIZE : Nat := 16
def HEADER_SIZE : Nat := 48
def U16_MAX : Nat := 65535
def MAGIC : Nat := 0x73796E63
def VERSION : Nat := 1

/-! ## Errors (db.rs DbError, btree.rs BTreeError) -/

inductive PageTy where
  | meta | freeList | leaf | branch
  deriving DecidableEq

inductive DbError where
  | io
  | page
  | invalidMagic (found expected : Nat)
  | fileTooSmall (size required : Nat)
  | pageOutOfBounds (pageId fileSize : Nat)
  | pageFormat
  deriving DecidableEq

inductive BTreeError where
  | invalidPageType (pageId : Nat) (pageType : PageTy)
  | corruptPageType (pageId rawType : Nat)
  | emptyBranchPage (pageId : Nat)
  | keyTooLarge (keySize maxSize : Nat)
  | valueTooLarge (valueSize maxSize : Nat)
  | pageFull (pageId : Nat)
  | db (e : DbError)
  deriving DecidableEq

/-- Runtime outcome of write-path code: a Rust panic (or abort) versus a
returned BTreeError. -/
inductive RErr where
  | panic
  | btree (e : BTreeError)
  deriving DecidableEq

/-! ## Byte-level primitives -/

/-- Little-endian 2-byte encoding, with u16 truncation. -/
def le16 (n : Nat) : Bytes := [n % 256, n / 256 % 256]

/-- Little-endian 4-byte encoding, with u32 truncation. -/
def le32 (n : Nat) : Bytes := [n % 256, n / 256 % 256, n / 65536 % 256, n / 16777216 % 256]

/-- Little-endian 8-byte encoding, with u64 truncation. -/
def le64 (n : Nat) : Bytes :=
  [n % 256, n / 256 % 256, n / 65536 % 256, n / 16777216 % 256,
   n / 4294967296 % 256, n / 1099511627776 % 256,
   n / 281474976710656 % 256, n / 72057594037927936 % 256]

/-- Read a u16 at a byte offset (little-endian). -/
def rU16 (b : Buf) (off : Nat) : Nat :=
  b.get off + 256 * b.get (off + 1)

/-- Read a u32 at a byte offset (little-endian). -/
def rU32 (b : Buf) (off : Nat) : Nat :=
  b.get off + 256 * b.get (off + 1) + 65536 * b.get (off + 2)
    + 16777216 * b.get (off + 3)

/-- Read a u64 at a byte offset (little-endian). -/
def rU64 (b : Buf) (off : Nat) : Nat :=
  rU32 b off + 4294967296 * rU32 b (off + 4)

/-- Rust slice write dst[off..off+src.len()].copy_from_slice(src):
panics when the range exceeds the buffer. -/
def cw (dst : Buf) (off : Nat) (src : Buf) : Except RErr Buf :=
  if off + src.size ≤ dst.size then .ok (writeBytes dst off src) else .error .panic

/-- Rust subslice b[s..e]: panics unless s ≤ e ≤ b.len(). -/
def sl (b : Buf) (s e : Nat) : Except RErr Buf :=
  if s ≤ e ∧ e ≤ b.size then .ok ((b.take e).drop s) else .error .panic

/-- Debug-mode usize subtraction: panics on underflow.  (In release mode
the subtraction wraps and the subsequent slice operation panics instead;
either way the operation aborts.) -/
def usizeSub (a b : Nat) : Except RErr Nat :=
  if b ≤ a then .ok (a - b) else .error .panic

/-- Debug-mode u16 addition, as in (elem.kptr + elem.ksize): panics on
overflow past 65535. -/
def u16Add (a b : Nat) : Except RErr Nat :=
  if a + b ≤ U16_MAX then .ok (a + b) else .error .panic

/-- One step of unsigned lexicographic comparison from index i; the fuel
starts above both sizes, so it never runs out. -/
def lexCmpGo (a b : Buf) : Nat → Nat → Ordering
  | _, 0 => .eq
  | i, fuel + 1 =>
    if i < a.size then
      if i < b.size then
        match compare (a.get i) (b.get i) with
        | .eq => lexCmpGo a b (i + 1) fuel
        | o => o
      else .gt
    else if i < b.size then .lt
    else .eq

/-- Unsigned lexicographic comparison of byte strings (Rust slice cmp). -/
def lexCmp (a b : Buf) : Ordering := lexCmpGo a b 0 (max a.size b.size + 1)

/-- Rust slice strict less-than. -/
def bytesLt (a b : Buf) : Bool := lexCmp a b == .lt

/-! ## search.rs -/

/-- Fuelled loop body of search::binary_search.  The fuel is chosen so
that it never runs out (the interval shrinks at every step); running out
is mapped to a panic for totality. -/
def binarySearchGo (cmp : Nat → Except RErr Ordering) :
    Nat → Nat → Nat → Nat → Except RErr (Nat × Bool)
  | 0, _, _, _ => .error .panic
  | fuel + 1, left, right, insertPos =>
    if left < right then
      let mid := left + (right - left) / 2
      match cmp mid with
      | .error e => .error e
      | .ok .eq => .ok (mid, true)
      | .ok .lt => binarySearchGo cmp fuel (mid + 1) right (mid + 1)
      | .ok .gt => binarySearchGo cmp fuel left mid mid
    else .ok (insertPos, false)

/-- search::binary_search over the half-open range [start, end). -/
def binarySearch (start stop : Nat) (cmp : Nat → Except RErr Ordering) :
    Except RErr (Nat × Bool) :=
  binarySearchGo cmp (stop - start + 1) start stop stop

/-- search::search_leaf_elements: binary search of a leaf page body. -/
def searchLeafElements (body : Buf) (elementCount : Nat) (searchKey : Buf) :
    Except RErr (Nat × Bool) :=
  binarySearch 0 elementCount fun mid => do
    let _ ← sl body (mid * LEAF_ELEMENT_SIZE) ((mid + 1) * LEAF_ELEMENT_SIZE)
    let kptr := rU16 body (mid * LEAF_ELEMENT_SIZE + 4)
    let ksize := rU16 body (mid * LEAF_ELEMENT_SIZE)
    let storedKey ← sl body kptr (kptr + ksize)
    pure (lexCmp storedKey searchKey)

/-- search::search_branch_elements: binary search of a branch page body
over elements 1..count (element 0 is the leftmost, keyless child). -/
def searchBranchElements (body : Buf) (elementCount : Nat) (searchKey : Buf) :
    Except RErr (Nat × Bool) :=
  binarySearch 1 (elementCount + 1) fun mid => do
    let _ ← sl body (mid * BRANCH_ELEMENT_SIZE) ((mid + 1) * BRANCH_ELEMENT_SIZE)
    let ksize := rU16 body (mid * BRANCH_ELEMENT_SIZE + 8)
    if ksize == 0 then
      pure .gt
    else
      let kptr := rU16 body (mid * BRANCH_ELEMENT_SIZE + 10)
      let keyData ← sl body kptr (kptr + ksize)
      pure (lexCmp keyData searchKey)

/-! ## Write transactions (btree.rs) -/

/-- HashMap u64 -> Vec u8, modelled as an association list with at most
one binding per key (insert replaces). -/
def hmGet (m : List (Nat × Buf)) (k : Nat) : Option Buf :=
  (m.find? (fun p => p.1 == k)).map (·.2)

/-- HashMap::insert: replace any existing binding for k. -/
def hmInsert (m : List (Nat × Buf)) (k : Nat) (v : Buf) : List (Nat × Buf) :=
  (k, v) :: m.filter (fun p => p.1 ≠ k)

structure WriteTxn where
  mmap : Buf
  root_page_id : Nat
  dirty_pages : List (Nat × Buf)
  free_list : List Nat
  highest_page_id : Nat

/-- Write-path computations: state passing over the transaction plus the
panic-or-error outcome.  The state component is also returned on errors,
mirroring mutation through the &mut receiver. -/
def BtM (α : Type) : Type := WriteTxn → Except RErr α × WriteTxn

instance : Monad BtM where
  pure a := fun t => (.ok a, t)
  bind x f := fun t =>
    match x t with
    | (.ok a, t') => f a t'
    | (.error e, t') => (.error e, t')

def throwB {α : Type} (e : RErr) : BtM α := fun t => (.error e, t)

def liftE {α : Type} (x : Except RErr α) : BtM α := fun t => (x, t)

def getTxn : BtM WriteTxn := fun t => (.ok t, t)

def setDirty (pageId : Nat) (bytes : Buf) : BtM Unit := fun t =>
  (.ok (), { t with dirty_pages := hmInsert t.dirty_pages pageId bytes })

def setRoot (pageId : Nat) : BtM Unit := fun t =>
  (.ok (), { t with root_page_id := pageId })

/-- WriteTxn::read_page: dirty buffer first, else a bounds-checked slice
of the shared map. -/
def readPage (pageId : Nat) : BtM Buf := fun t =>
  match hmGet t.dirty_pages pageId with
  | some b => (.ok b, t)
  | none =>
    let offset := pageId * PAGE_SIZE
    if offset + PAGE_SIZE > t.mmap.size then
      (.error (.btree (.db (.pageOutOfBounds pageId t.mmap.size))), t)
    else
      (.ok ((t.mmap.take (offset + PAGE_SIZE)).drop offset), t)

/-- WriteTxn::get_page_for_write: copy the page into the dirty buffer on
first touch and return the buffered bytes. -/
def getPageForWrite (pageId : Nat) : BtM Buf := do
  let t ← getTxn
  match hmGet t.dirty_pages pageId with
  | some b => pure b
  | none =>
    let b ← readPage pageId
    setDirty pageId b
    pure b

/-- WriteTxn::allocate_page: pop the free list, else bump highest_page_id
and return the new top. -/
def allocatePage : BtM Nat := fun t =>
  match t.free_list with
  | pageId :: rest => (.ok pageId, { t with free_list := rest })
  | [] =>
    let h := t.highest_page_id + 1
    (.ok h, { t with highest_page_id := h })

/-- WriteTxn::get_page_type: decode the page_type byte. -/
def getPageType (pageId : Nat) : BtM PageTy := do
  let pb ← readPage pageId
  if pb.size < PAGE_HEADER_SIZE then
    throwB (.btree (.corruptPageType pageId 0))
  else
    match pb.get 8 with
    | 1 => pure .meta
    | 2 => pure .freeList
    | 3 => pure .leaf
    | 4 => pure .branch
    | raw => throwB (.btree (.corruptPageType pageId raw))

/-- The page body: everything after the 16-byte header. -/
def pageBody (pb : Buf) : Buf := pb.drop PAGE_HEADER_SIZE

/-- WriteTxn::find_child_page: branch search, then the (found ? i : i-1)
child rule, saturating at 0. -/
def findChildPage (pageId : Nat) (forKey : Buf) : BtM Nat := do
  let pb ← readPage pageId
  if pb.size < PAGE_HEADER_SIZE then
    throwB (.btree (.corruptPageType pageId (pb.get 8)))
  else
    let body := pageBody pb
    let elementCount := rU16 pb 10
    let sr ← liftE (searchBranchElements body elementCount forKey)
    let childIndex := if sr.2 then sr.1 else sr.1 - 1
    let elemBytes ← liftE (sl body (childIndex * BRANCH_ELEMENT_SIZE)
      ((childIndex + 1) * BRANCH_ELEMENT_SIZE))
    pure (rU64 elemBytes 0)

/-! ## Leaf insert and split (btree.rs) -/

/-- The min_kptr scan of WriteTxn::insert_into_leaf over elements
0..count of a leaf body. -/
def leafMinKptr (body : Buf) (cc : Nat) : Except RErr Nat :=
  (List.range cc).foldlM (fun acc i => do
    let _ ← sl body (i * LEAF_ELEMENT_SIZE) ((i + 1) * LEAF_ELEMENT_SIZE)
    pure (min acc (rU16 body (i * LEAF_ELEMENT_SIZE + 4)))) PAGE_BODY_SIZE

/-- The materialisation loop of WriteTxn::split_leaf: walk the elements
in directory order, splicing the new pair in front of the first strictly
greater stored key, and append it at the end when no such key exists. -/
def collectLeafKVs (body : Buf) (cc : Nat) (newKey newValue : Buf) :
    Except RErr (List (Buf × Buf)) := do
  let st ← (List.range cc).foldlM
    (fun (st : List (Buf × Buf) × Bool) i => do
      let (kvs, inserted) := st
      let _ ← sl body (i * LEAF_ELEMENT_SIZE) ((i + 1) * LEAF_ELEMENT_SIZE)
      let ksize := rU16 body (i * LEAF_ELEMENT_SIZE)
      let vsize := rU16 body (i * LEAF_ELEMENT_SIZE + 2)
      let kptr := rU16 body (i * LEAF_ELEMENT_SIZE + 4)
      let vptr := rU16 body (i * LEAF_ELEMENT_SIZE + 6)
      let kEnd ← u16Add kptr ksize
      let key ← sl body kptr kEnd
      let vEnd ← u16Add vptr vsize
      let value ← sl body vptr vEnd
      pure (if !inserted && bytesLt newKey key then
        (kvs ++ [(newKey, newValue), (key, value)], true)
      else
        (kvs ++ [(key, value)], inserted))) ([], false)
  pure (if st.2 then st.1 else st.1 ++ [(newKey, newValue)])

/-- One pair of the write_leaf_page loop: pack value then key backward
from the payload cursor, then write the element at directory slot i. -/
def writeLeafStep (st : Buf × Nat) (p : Nat × (Buf × Buf)) : Except RErr (Buf × Nat) := do
  let (pb, off) := st
  let (i, key, value) := p
  let off1 ← usizeSub off value.size
  let pb ← cw pb off1 value
  let vptrBody ← usizeSub off1 PAGE_HEADER_SIZE
  let off2 ← usizeSub off1 key.size
  let pb ← cw pb off2 key
  let kptrBody ← usizeSub off2 PAGE_HEADER_SIZE
  let elem := bs (le16 key.size ++ le16 value.size ++ le16 kptrBody ++ le16 vptrBody)
  let pb ← cw pb (PAGE_HEADER_SIZE + i * LEAF_ELEMENT_SIZE) elem
  pure (pb, off2)

/-- WriteTxn::write_leaf_page: build a fresh leaf image, element
directory growing forward from the header, payload packed backward from
the end of the page; pointers are stored relative to the page body. -/
def writeLeafPage (pageId : Nat) (kvs : List (Buf × Buf)) : BtM Unit := do
  let pb0 := Buf.repl PAGE_SIZE 0
  let headerB := bs (le64 pageId ++ [3, 0] ++ le16 kvs.length ++ le32 0)
  let pb1 ← liftE (cw pb0 0 headerB)
  let st ← liftE ((kvs.enum).foldlM writeLeafStep (pb1, PAGE_SIZE))
  setDirty pageId st.1

/-- WriteTxn::split_leaf. -/
def splitLeaf (pageId : Nat) (newKey newValue : Buf) : BtM (Option (Buf × Nat)) := do
  let pb ← readPage pageId
  if pb.size < PAGE_HEADER_SIZE then
    throwB (.btree (.corruptPageType pageId (pb.get 8)))
  else do
    let body := pageBody pb
    let cc := rU16 pb 10
    let kvs ← liftE (collectLeafKVs body cc newKey newValue)
    let splitIdx := (kvs.length + 1) / 2
    let newPageId ← allocatePage
    writeLeafPage pageId (kvs.take splitIdx)
    writeLeafPage newPageId (kvs.drop splitIdx)
    match kvs.get? splitIdx with
    | none => throwB .panic
    | some kv => pure (some (kv.1, newPageId))

/-- WriteTxn::insert_into_leaf: size validation, capacity check (split
when the new pair does not fit), then in-place update or insertion. -/
def insertIntoLeaf (pageId : Nat) (key value : Buf) : BtM (Option (Buf × Nat)) := do
  if key.size > U16_MAX then
    throwB (.btree (.keyTooLarge key.size U16_MAX))
  else if value.size > U16_MAX then
    throwB (.btree (.valueTooLarge value.size U16_MAX))
  else do
    let pb ← getPageForWrite pageId
    if pb.size < PAGE_HEADER_SIZE then
      throwB (.btree (.corruptPageType pageId (pb.get 8)))
    else do
      let cc := rU16 pb 10
      let minKptr ← liftE (if cc == 0 then .ok PAGE_BODY_SIZE else leafMinKptr (pageBody pb) cc)
      let newElementsEnd := (cc + 1) * LEAF_ELEMENT_SIZE
      let keyOffset ← liftE (usizeSub minKptr (key.size + value.size))
      let valueOffset := keyOffset + key.size
      if newElementsEnd > keyOffset then
        splitLeaf pageId key value
      else do
        let sr ← liftE (searchLeafElements (pageBody pb) cc key)
        let (insertPos, found) := sr
        let pb ← liftE (cw pb (PAGE_HEADER_SIZE + keyOffset) key)
        let pb ← liftE (cw pb (PAGE_HEADER_SIZE + valueOffset) value)
        let elem := bs (le16 key.size ++ le16 value.size ++ le16 keyOffset ++ le16 valueOffset)
        let elemOffset := insertPos * LEAF_ELEMENT_SIZE
        if found then do
          let pb ← liftE (cw pb (PAGE_HEADER_SIZE + elemOffset) elem)
          setDirty pageId pb
          pure none
        else do
          let pb ← liftE (
            if insertPos < cc then do
              let src ← sl pb (PAGE_HEADER_SIZE + insertPos * LEAF_ELEMENT_SIZE)
                (PAGE_HEADER_SIZE + cc * LEAF_ELEMENT_SIZE)
              cw pb (PAGE_HEADER_SIZE + (insertPos + 1) * LEAF_ELEMENT_SIZE) src
            else pure pb)
          let pb ← liftE (cw pb (PAGE_HEADER_SIZE + elemOffset) elem)
          let pb ← liftE (cw pb 10 (bs (le16 (cc + 1))))
          setDirty pageId pb
          pure none

/-! ## Branch insert and split (btree.rs) -/

/-- One entry of the write_branch_page loop: pack a non-empty key
backward from the payload cursor (whole-page offsets), then write the
element at directory slot i. -/
def writeBranchStep (st : Buf × Nat) (p : Nat × (Buf × Nat)) : Except RErr (Buf × Nat) := do
  let (pb, off) := st
  let (i, key, childId) := p
  let (pb, kptr, off) ←
    if key.size == 0 then
      pure (pb, 0, off)
    else do
      let off ← usizeSub off key.size
      let pb ← cw pb off key
      pure (pb, off, off)
  let elem := bs (le64 childId ++ le16 key.size ++ le16 kptr ++ le32 0)
  let pb ← cw pb (PAGE_HEADER_SIZE + i * BRANCH_ELEMENT_SIZE) elem
  pure (pb, off)

/-- WriteTxn::write_branch_page.  Note: the payload cursor indexes the
whole page (starting at PAGE_BODY_SIZE) while the stored kptr is later
interpreted relative to the page body by every reader. -/
def writeBranchPage (pageId : Nat) (entries : List (Buf × Nat)) : BtM Unit := do
  let pb0 := Buf.repl PAGE_SIZE 0
  let cnt ← liftE (usizeSub entries.length 1)
  let headerB := bs (le64 pageId ++ [4, 0] ++ le16 cnt ++ le32 0)
  let pb1 ← liftE (cw pb0 0 headerB)
  let st ← liftE ((entries.enum).foldlM writeBranchStep (pb1, PAGE_BODY_SIZE))
  setDirty pageId st.1

/-- WriteTxn::split_root: build a fresh branch root over the old root
and the freshly split-off page. -/
def splitRoot (separatorKey : Buf) (newPageId : Nat) : BtM Unit := do
  let t ← getTxn
  let oldRootId := t.root_page_id
  let newRootId ← allocatePage
  let pb0 := Buf.repl PAGE_SIZE 0
  let keyOffset ← liftE (usizeSub PAGE_BODY_SIZE separatorKey.size)
  let pb ← liftE (cw pb0 (PAGE_HEADER_SIZE + keyOffset) separatorKey)
  let headerB := bs (le64 newRootId ++ [4, 0] ++ le16 1 ++ le32 0)
  let pb ← liftE (cw pb 0 headerB)
  let elem1 := bs (le64 oldRootId ++ le16 0 ++ le16 0 ++ le32 0)
  let pb ← liftE (cw pb PAGE_HEADER_SIZE elem1)
  let elem2 := bs (le64 newPageId ++ le16 separatorKey.size ++ le16 keyOffset ++ le32 0)
  let pb ← liftE (cw pb (PAGE_HEADER_SIZE + BRANCH_ELEMENT_SIZE) elem2)
  setDirty newRootId pb
  setRoot newRootId

/-- The min_kptr scan of WriteTxn::insert_into_branch over all count+1
elements, ignoring the keyless ones. -/
def branchMinKptr (body : Buf) (total : Nat) : Except RErr Nat :=
  (List.range total).foldlM (fun acc i => do
    let _ ← sl body (i * BRANCH_ELEMENT_SIZE) ((i + 1) * BRANCH_ELEMENT_SIZE)
    let ksize := rU16 body (i * BRANCH_ELEMENT_SIZE + 8)
    pure (if ksize > 0 then min acc (rU16 body (i * BRANCH_ELEMENT_SIZE + 10)) else acc))
    PAGE_BODY_SIZE

/-- The materialisation loop of WriteTxn::split_branch: the keyless
leftmost child first, then separators 1..count in order, splicing the
new (separator, child) pair in front of the first strictly greater
one. -/
def collectBranchEntries (body : Buf) (cc : Nat) (newKey : Buf) (newChildId : Nat) :
    Except RErr (List (Buf × Nat)) := do
  let _ ← sl body 0 BRANCH_ELEMENT_SIZE
  let e0 := rU64 body 0
  let st ← (List.range cc).foldlM
    (fun (st : List (Buf × Nat) × Bool) j => do
      let i := j + 1
      let (entries, inserted) := st
      let _ ← sl body (i * BRANCH_ELEMENT_SIZE) ((i + 1) * BRANCH_ELEMENT_SIZE)
      let ksize := rU16 body (i * BRANCH_ELEMENT_SIZE + 8)
      let kptr := rU16 body (i * BRANCH_ELEMENT_SIZE + 10)
      let kEnd ← u16Add kptr ksize
      let key ← sl body kptr kEnd
      let childId := rU64 body (i * BRANCH_ELEMENT_SIZE)
      pure (if !inserted && bytesLt newKey key then
        (entries ++ [(newKey, newChildId), (key, childId)], true)
      else
        (entries ++ [(key, childId)], inserted))) ([(bs [], e0)], false)
  pure (if st.2 then st.1 else st.1 ++ [(newKey, newChildId)])

/-- WriteTxn::split_branch. -/
def splitBranch (pageId : Nat) (newKey : Buf) (newChildId : Nat) :
    BtM (Option (Buf × Nat)) := do
  let pb ← readPage pageId
  if pb.size < PAGE_HEADER_SIZE then
    throwB (.btree (.corruptPageType pageId (pb.get 8)))
  else do
    let body := pageBody pb
    let cc := rU16 pb 10
    let entries ← liftE (collectBranchEntries body cc newKey newChildId)
    let splitIdx := entries.length / 2
    match entries.get? splitIdx with
    | none => throwB .panic
    | some mid => do
      let separator := mid.1
      let newPageId ← allocatePage
      writeBranchPage pageId (entries.take splitIdx)
      writeBranchPage newPageId ((bs [], mid.2) :: entries.drop (splitIdx + 1))
      pure (some (separator, newPageId))

/-- WriteTxn::insert_into_branch: capacity check (split when the new
separator does not fit), else in-place insertion of the separator.  The
search is passed total_elements = count + 1, as in the source. -/
def insertIntoBranch (pageId : Nat) (key : Buf) (childPageId : Nat) :
    BtM (Option (Buf × Nat)) := do
  let pb ← getPageForWrite pageId
  if pb.size < PAGE_HEADER_SIZE then
    throwB (.btree (.corruptPageType pageId (pb.get 8)))
  else do
    let cc := rU16 pb 10
    let total := cc + 1
    let minKptr ← liftE (if cc == 0 then .ok PAGE_BODY_SIZE else branchMinKptr (pageBody pb) total)
    let newElementsEnd := (total + 1) * BRANCH_ELEMENT_SIZE
    let keyOffset ← liftE (usizeSub minKptr key.size)
    if newElementsEnd > keyOffset then
      splitBranch pageId key childPageId
    else do
      let sr ← liftE (searchBranchElements (pageBody pb) total key)
      let insertPos := sr.1
      let pb ← liftE (cw pb (PAGE_HEADER_SIZE + keyOffset) key)
      let pb ← liftE (
        if insertPos < total then do
          let src ← sl pb (PAGE_HEADER_SIZE + insertPos * BRANCH_ELEMENT_SIZE)
            (PAGE_HEADER_SIZE + total * BRANCH_ELEMENT_SIZE)
          cw pb (PAGE_HEADER_SIZE + (insertPos + 1) * BRANCH_ELEMENT_SIZE) src
        else pure pb)
      let elem := bs (le64 childPageId ++ le16 key.size ++ le16 keyOffset ++ le32 0)
      let pb ← liftE (cw pb (PAGE_HEADER_SIZE + insertPos * BRANCH_ELEMENT_SIZE) elem)
      let pb ← liftE (cw pb 10 (bs (le16 (cc + 1))))
      setDirty pageId pb
      pure none

/-! ## Recursive insert (btree.rs) -/

/-- WriteTxn::insert_recursive.  The fuel bounds the recursion depth;
exhaustion models divergence (stack overflow and abort) on a corrupt
cyclic page graph and never occurs on well-formed trees with fuel above
the tree height. -/
def insertRecursive : Nat → Nat → Buf → Buf → BtM (Option (Buf × Nat))
  | 0, _, _, _ => throwB .panic
  | fuel + 1, pageId, key, value => do
    match ← getPageType pageId with
    | .leaf => insertIntoLeaf pageId key value
    | .branch => do
      let childPageId ← findChildPage pageId key
      match ← insertRecursive fuel childPageId key value with
      | some (sepKey, newChildId) => insertIntoBranch pageId sepKey newChildId
      | none => pure none
    | pt => throwB (.btree (.invalidPageType pageId pt))

/-- WriteTxn::insert. -/
def insertOp (fuel : Nat) (key value : Buf) : BtM Unit := do
  let t ← getTxn
  match ← insertRecursive fuel t.root_page_id key value with
  | some (separatorKey, newPageId) => splitRoot separatorKey newPageId
  | none => pure ()

/-- WriteTxn::prepare_commit: surrender the dirty buffer, the highest
page id and the root page id. -/
def prepareCommit (t : WriteTxn) : List (Nat × Buf) × Nat × Nat :=
  (t.dirty_pages, t.highest_page_id, t.root_page_id)

/-! ## Database header and file (db.rs) -/

structure Header where
  magic : Nat
  version : Nat
  page_size : Nat
  root_page_id : Nat
  free_list_page_id : Nat
  highest_page_id : Nat
  tx_id : Nat
  deriving DecidableEq

/-- Header::new. -/
def Header.fresh : Header :=
  { magic := MAGIC, version := VERSION, page_size := PAGE_SIZE,
    root_page_id := 0, free_list_page_id := 1, highest_page_id := 2, tx_id := 0 }

/-- The 48-byte on-disk image of the header (native-endian fields,
4 bytes of explicit padding after page_size). -/
def headerBytes (h : Header) : Bytes :=
  le32 h.magic ++ le32 h.version ++ le32 h.page_size ++ le32 0 ++
  le64 h.root_page_id ++ le64 h.free_list_page_id ++
  le64 h.highest_page_id ++ le64 h.tx_id

/-- Db::read_header field extraction. -/
def readHeader (m : Buf) : Header :=
  { magic := rU32 m 0, version := rU32 m 4, page_size := rU32 m 8,
    root_page_id := rU64 m 16, free_list_page_id := rU64 m 24,
    highest_page_id := rU64 m 32, tx_id := rU64 m 40 }

/-- The database: the memory-mapped file image plus the in-memory
header.  Locks are irrelevant to the sequential semantics modelled
here. -/
structure Db where
  mmap : Buf
  header : Header

/-- File extension by set_len: the new tail reads as zeros. -/
def growTo (m : Buf) (n : Nat) : Buf := m.append (Buf.repl (n - m.size) 0)

/-- Db::open on a fresh (empty) file: truncate to two pages, write a
fresh header, map, and re-read the header. -/
def dbOpenEmpty : Db :=
  let m0 := writeBytes (Buf.repl (2 * PAGE_SIZE) 0) 0 (bs (headerBytes Header.fresh))
  { mmap := m0, header := readHeader m0 }

/-- Db::initialize_root_page: grow to three pages, write an empty leaf
at page 2, set root_page_id = 2 and highest_page_id = 2, and persist the
header into the map. -/
def initRootPage (db : Db) : Db :=
  let m := if db.mmap.size < 3 * PAGE_SIZE then growTo db.mmap (3 * PAGE_SIZE) else db.mmap
  let pageHeaderB := bs (le64 2 ++ [3, 0] ++ le16 0 ++ le32 0)
  let m := writeBytes m (2 * PAGE_SIZE) pageHeaderB
  let m := writeBytes m (2 * PAGE_SIZE + PAGE_HEADER_SIZE) (Buf.repl PAGE_BODY_SIZE 0)
  let header := { db.header with root_page_id := 2, highest_page_id := 2 }
  let m := writeBytes m 0 (bs (headerBytes header))
  { mmap := m, header := header }

/-- The root-initialisation test of Db::begin_write_transaction. -/
def needsInit (db : Db) : Bool :=
  2 * PAGE_SIZE ≥ db.mmap.size || db.mmap.get (2 * PAGE_SIZE) == 0

/-- Db::begin_write_transaction: initialise the root when needed, then
construct the writer over the current map and header, with an empty free
list and an empty dirty buffer. -/
def beginWriteTransaction (db : Db) : Db × WriteTxn :=
  let db := if needsInit db then initRootPage db else db
  (db, { mmap := db.mmap, root_page_id := db.header.root_page_id,
         dirty_pages := [], free_list := [],
         highest_page_id := db.header.highest_page_id })

/-- Outcome of Db::commit_dirty_pages: a returned DbError or a panic. -/
inductive CErr where
  | panic
  | db (e : DbError)
  deriving DecidableEq

/-- The header produced by a successful commit: the new highest page id
and root, with tx_id advanced by one. -/
def advanceHeader (h : Header) (nh nr : Nat) : Header :=
  { h with
    highest_page_id := nh
    root_page_id := nr
    tx_id := h.tx_id + 1 }

/-- One step of the page-copy loop of Db::commit_dirty_pages: pages
whose range exceeds the map are skipped, in-range pages must be exactly
one page long and are copied whole. -/
def commitCopyStep (m : Buf) (p : Nat × Buf) : Except CErr Buf :=
  if p.1 * PAGE_SIZE + PAGE_SIZE ≤ m.size then
    if p.2.size = PAGE_SIZE then .ok (writeBytes m (p.1 * PAGE_SIZE) p.2)
    else .error .panic
  else .ok m

/-- The same copy loop with every dirty page written unconditionally. -/
def copyAll (dirty : List (Nat × Buf)) (m : Buf) : Buf :=
  dirty.foldl (fun m p => writeBytes m (p.1 * PAGE_SIZE) p.2) m

/-- The page-copy, header-update and flush phase of
Db::commit_dirty_pages, entered after any growth of the map.  Copies
each dirty page whose range lies inside the map, updates the in-memory
header, writes it into the map, then flushes (failure injected by
flushFail), returning the outcome together with the database state. -/
def commitWrites (db : Db) (m : Buf) (dirty : List (Nat × Buf))
    (newHighestPageId newRootPageId : Nat) (flushFail : Bool) : Except CErr Unit × Db :=
  let copied : Except CErr Buf := dirty.foldlM commitCopyStep m
  match copied with
  | .error e => (.error e, db)
  | .ok m =>
    let h0 := db.header
    let header := { h0 with
      highest_page_id := newHighestPageId
      root_page_id := newRootPageId
      tx_id := h0.tx_id + 1 }
    if HEADER_SIZE ≤ m.size then
      let m := writeBytes m 0 (bs (headerBytes header))
      if flushFail then (.error (.db .io), { mmap := m, header := header })
      else (.ok (), { mmap := m, header := header })
    else (.error .panic, { db with header := header })

/-- Db::commit_dirty_pages.  growFail injects an I/O failure of the
set_len / re-map step (attempted only when the map must grow); flushFail
injects a failure of the final flush. -/
def commitDirtyPages (db : Db) (dirty : List (Nat × Buf))
    (newHighestPageId newRootPageId : Nat) (growFail flushFail : Bool) :
    Except CErr Unit × Db :=
  let required := (newHighestPageId + 1) * PAGE_SIZE
  if required > db.mmap.size then
    if growFail then (.error (.db .io), db)
    else commitWrites db (growTo db.mmap required) dirty newHighestPageId newRootPageId flushFail
  else commitWrites db db.mmap dirty newHighestPageId newRootPageId flushFail

/-- Db::commit (delegates to commit_dirty_pages). -/
def dbCommit (db : Db) (dirty : List (Nat × Buf)) (highestPageId rootPageId : Nat)
    (growFail flushFail : Bool) : Except CErr Unit × Db :=
  commitDirtyPages db dirty highestPageId rootPageId growFail flushFail

/-! ## Read transactions (db.rs) -/

structure ReadTxn where
  mmap : Buf
  header : Header

/-- Db::begin_read_transaction: shared map guard plus a by-value copy of
the in-memory header. -/
def beginReadTransaction (db : Db) : ReadTxn :=
  { mmap := db.mmap, header := db.header }

/-- Outcome of the read path: a returned DbError or a panic. -/
inductive RdErr where
  | panic
  | db (e : DbError)
  deriving DecidableEq

/-- Byte-slice operations on the read path can only panic. -/
def rdE {α : Type} : Except RErr α → Except RdErr α
  | .ok a => .ok a
  | .error _ => .error .panic

/-- Search failures on the read path are mapped to PageFormat by the
callers (the decode-error case; slice panics remain panics). -/
def mapRdSearch {α : Type} : Except RErr α → Except RdErr α
  | .ok a => .ok a
  | .error .panic => .error .panic
  | .error (.btree _) => .error (.db .pageFormat)

/-- ReadTxn::search_leaf. -/
def rtSearchLeaf (rt : ReadTxn) (pageId : Nat) (key : Buf) :
    Except RdErr (Option Buf) := do
  let pageOffset := pageId * PAGE_SIZE
  let pageBytes ← rdE (sl rt.mmap pageOffset (pageOffset + PAGE_SIZE))
  if pageBytes.size < PAGE_HEADER_SIZE then .error (.db .pageFormat)
  else do
    let body := pageBody pageBytes
    let elementCount := rU16 pageBytes 10
    let sr ← mapRdSearch (searchLeafElements body elementCount key)
    let (index, found) := sr
    if found then do
      let _ ← rdE (sl body (index * LEAF_ELEMENT_SIZE) ((index + 1) * LEAF_ELEMENT_SIZE))
      let vsize := rU16 body (index * LEAF_ELEMENT_SIZE + 2)
      let vptr := rU16 body (index * LEAF_ELEMENT_SIZE + 6)
      let vEnd ← rdE (u16Add vptr vsize)
      let value ← rdE (sl body vptr vEnd)
      pure (some value)
    else
      pure none

/-- ReadTxn::find_child_in_branch. -/
def rtFindChildInBranch (rt : ReadTxn) (pageId : Nat) (forKey : Buf) :
    Except RdErr Nat := do
  let pageOffset := pageId * PAGE_SIZE
  let pageBytes ← rdE (sl rt.mmap pageOffset (pageOffset + PAGE_SIZE))
  if pageBytes.size < PAGE_HEADER_SIZE then .error (.db .pageFormat)
  else do
    let body := pageBody pageBytes
    let elementCount := rU16 pageBytes 10
    let sr ← mapRdSearch (searchBranchElements body elementCount forKey)
    let childIndex := if sr.2 then sr.1 else sr.1 - 1
    let elemBytes ← rdE (sl body (childIndex * BRANCH_ELEMENT_SIZE)
      ((childIndex + 1) * BRANCH_ELEMENT_SIZE))
    pure (rU64 elemBytes 0)

/-- ReadTxn::get_recursive, through PageReader::get_page (logical and
physical validation), dispatching on the page type byte; unknown types
yield absent. -/
def rtGetRecursive : Nat → ReadTxn → Nat → Buf → Except RdErr (Option Buf)
  | 0, _, _, _ => .error .panic
  | fuel + 1, rt, pageId, key =>
    if pageId > rt.header.highest_page_id then .error (.db .page)
    else if pageId * PAGE_SIZE + PAGE_HEADER_SIZE > rt.mmap.size then .error (.db .page)
    else
      let ty := rt.mmap.get (pageId * PAGE_SIZE + 8)
      if ty == 3 then rtSearchLeaf rt pageId key
      else if ty == 4 then do
        let childId ← rtFindChildInBranch rt pageId key
        rtGetRecursive fuel rt childId key
      else .ok none

/-- ReadTxn::get. -/
def rtGet (fuel : Nat) (rt : ReadTxn) (key : Buf) : Except RdErr (Option Buf) :=
  rtGetRecursive fuel rt rt.header.root_page_id key

/-! ## Observers and predicates used by the theorem statements -/

deriving instance DecidableEq for Except

/-- Observe a read result: values surfaced as byte lists. -/
def obsGet (x : Except RdErr (Option Buf)) : Except RdErr (Option Bytes) :=
  match x with
  | .ok (some v) => .ok (some v.toList)
  | .ok none => .ok none
  | .error e => .error e

/-- Observe an insert-level result (separator surfaced as a byte list). -/
def obsSplitRes (x : Except RErr (Option (Buf × Nat))) :
    Except RErr (Option (Bytes × Nat)) :=
  match x with
  | .ok (some (s, n)) => .ok (some (s.toList, n))
  | .ok none => .ok none
  | .error e => .error e

/-- The keys of a leaf page in directory order, decoded exactly as the
readers decode them (count from the page header, per-element ksize and
kptr, key bytes at the body-relative kptr). -/
def leafKeyList (pg : Buf) : List Bytes :=
  (List.range (rU16 pg 10)).map fun i =>
    let body := pageBody pg
    let ksize := rU16 body (i * LEAF_ELEMENT_SIZE)
    let kptr := rU16 body (i * LEAF_ELEMENT_SIZE + 4)
    ((body.take (kptr + ksize)).drop kptr).toList

/-- The separator key of branch element i, decoded exactly as the
readers decode it (ksize and kptr from the element, key bytes at the
body-relative kptr). -/
def branchSepList (pg : Buf) (i : Nat) : Option Bytes :=
  let body := pageBody pg
  let ksize := rU16 body (i * BRANCH_ELEMENT_SIZE + 8)
  let kptr := rU16 body (i * BRANCH_ELEMENT_SIZE + 10)
  match sl body kptr (kptr + ksize) with
  | .ok b => some b.toList
  | .error _ => none

/-- Strictly increasing in unsigned lexicographic order. -/
def StrictlyIncreasing (l : List Bytes) : Prop :=
  l.Chain' (fun a b => lexCmp (bs a) (bs b) = .lt)

/-- The descent of insert_recursive reaches a leaf within the given
fuel (mirrors the read-only page-type and child-resolution steps). -/
def reachesLeaf : Nat → WriteTxn → Nat → Buf → Bool
  | 0, _, _, _ => false
  | fuel + 1, t, pageId, key =>
    match (getPageType pageId t).1 with
    | .ok .leaf => true
    | .ok .branch =>
      match (findChildPage pageId key t).1 with
      | .ok childId => reachesLeaf fuel t childId key
      | .error _ => false
    | _ => false

/-- Run a list of inserts in one write transaction, keeping the final
transaction state (results are surrendered, as callers may). -/
def runInserts (fuel : Nat) (t : WriteTxn) (ops : List (Buf × Buf)) : WriteTxn :=
  ops.foldl (fun t kv => (insertOp fuel kv.1 kv.2 t).2) t

/-- Run a list of inserts, also recording whether every insert
returned Ok. -/
def runInsertsOk (fuel : Nat) (t : WriteTxn) (ops : List (Buf × Buf)) : Bool × WriteTxn :=
  ops.foldl (fun st kv =>
    let r := insertOp fuel kv.1 kv.2 st.2
    (st.1 && (match r.1 with | .ok _ => true | .error _ => false), r.2)) (true, t)

/-- The writer state after beginning a write transaction on db and
running the given inserts. -/
def txnAfter (fuel : Nat) (db : Db) (ops : List (Buf × Buf)) : WriteTxn :=
  runInserts fuel (beginWriteTransaction db).2 ops

/-- A well-formed (initialised) database state: at least three pages,
file length within the allocated range recorded by the header, and
page 2 carrying its own id and the leaf type tag, as established by
initialize_root_page and preserved by commits. -/
def DbWf (db : Db) : Prop :=
  3 * PAGE_SIZE ≤ db.mmap.size ∧
  db.mmap.size ≤ (db.header.highest_page_id + 1) * PAGE_SIZE ∧
  db.mmap.get (2 * PAGE_SIZE) = 2 ∧
  db.mmap.get (2 * PAGE_SIZE + 8) = 3

/-- Invariant of a write transaction over a well-formed snapshot: dirty
page ids never exceed highest_page_id, dirty buffers are page-sized, the
free list stays empty, the snapshot fits the allocated range, and the
dirty image of page 2 keeps its id byte and leaf type tag. -/
structure Inv (t : WriteTxn) : Prop where
  dirtyLe : ∀ p ∈ t.dirty_pages, p.1 ≤ t.highest_page_id
  dirtySz : ∀ p ∈ t.dirty_pages, p.2.size = PAGE_SIZE
  freeNil : t.free_list = []
  szBound : t.mmap.size ≤ (t.highest_page_id + 1) * PAGE_SIZE
  hi2 : 2 ≤ t.highest_page_id
  page2Id : ∀ p ∈ t.dirty_pages, p.1 = 2 → p.2.get 0 = 2
  page2Ty : ∀ p ∈ t.dirty_pages, p.1 = 2 → p.2.get 8 = 3
  mmapId : t.mmap.get (2 * PAGE_SIZE) = 2
  mmapTy : t.mmap.get (2 * PAGE_SIZE + 8) = 3

/-- One write session against the database: begin a write transaction,
run the inserts, prepare, and commit (no injected I/O failures, i.e. a
successful commit). -/
def sessionStep (fuel : Nat) (db : Db) (ops : List (Buf × Buf)) : Db :=
  let db1 := (beginWriteTransaction db).1
  let tf := runInserts fuel (beginWriteTransaction db).2 ops
  (dbCommit db1 (prepareCommit tf).1 (prepareCommit tf).2.1 (prepareCommit tf).2.2 false false).2

/-- The headers observed before and after each session of a sequence. -/
def headerTrace (fuel : Nat) (db : Db) : List (List (Buf × Buf)) → List Header
  | [] => [db.header]
  | ops :: rest => db.header :: headerTrace fuel (sessionStep fuel db ops) rest

/-! ## Concrete scenarios -/

/-- Opening a fresh database and beginning the first write transaction
(this initialises the root leaf at page 2). -/
def bwt0 : Db × WriteTxn := beginWriteTransaction dbOpenEmpty

def initializedDb : Db := bwt0.1

def txn0 : WriteTxn := bwt0.2

/-- The update-split scenario: four keys fill the root leaf (the value
of key 0x01 is 4028 bytes, so total live payload is 4035 bytes and
min kptr is 45), then re-inserting key 0x02 with a 6-byte value fails
the capacity check (39 < 40) and takes the leaf-split path although the
key is already present. -/
def runOps : List (Buf × Buf) :=
  [(bs [1], Buf.repl 4028 9), (bs [2], bs [9]), (bs [3], bs [7]), (bs [4], bs [7]),
   (bs [2], bs [5, 5, 5, 5, 5, 5])]

def runState : Bool × WriteTxn := runInsertsOk 10 txn0 runOps

def runTxn : WriteTxn := runState.2

def commitRun : Except CErr Unit × Db :=
  dbCommit initializedDb (prepareCommit runTxn).1 (prepareCommit runTxn).2.1
    (prepareCommit runTxn).2.2 false false

def committedDb : Db := commitRun.2

def runGetK2 : Except RdErr (Option Buf) :=
  rtGet 10 (beginReadTransaction committedDb) (bs [2])

/-- The committed image of page 2 (the left leaf after the split). -/
def committedPage2 : Buf :=
  (committedDb.mmap.take (3 * PAGE_SIZE)).drop (2 * PAGE_SIZE)

/-- A 50-byte separator key starting with byte 1, the rest bytes 2. -/
def sC7 : Buf := ⟨50, fun i => if i == 0 then 1 else 2⟩

/-- A well-formed branch page (id 2, count 1): the keyless element 0
points at child 4; element 1 carries the separator sC7 with ksize 50
and body-relative kptr 130. -/
def branchC7 : Buf :=
  writeBytes (writeBytes (writeBytes (writeBytes (Buf.repl PAGE_SIZE 0) 0
    (bs (le64 2 ++ [4, 0] ++ le16 1 ++ le32 0)))
    PAGE_HEADER_SIZE (bs (le64 4 ++ le16 0 ++ le16 0 ++ le32 0)))
    (PAGE_HEADER_SIZE + BRANCH_ELEMENT_SIZE) (bs (le64 5 ++ le16 50 ++ le16 130 ++ le32 0)))
    (PAGE_HEADER_SIZE + 130) sC7

/-- A writer about to insert a separator into the full branch page. -/
def txnC7 : WriteTxn :=
  { mmap := Buf.repl 0 0, root_page_id := 2, dirty_pages := [(2, branchC7)],
    free_list := [], highest_page_id := 6 }

/-- The new 100-byte separator (all zero bytes, so it sorts first). -/
def newSepC7 : Buf := Buf.repl 100 0

/-- Inserting the separator: min kptr is 130, the fit check fails
(130 - 100 = 30 < 48), so split_branch runs and allocates page 7. -/
def resC7 : Except RErr (Option (Buf × Nat)) × WriteTxn :=
  insertIntoBranch 2 newSepC7 6 txnC7

def rightPageC7 : Option Buf := hmGet resC7.2.dirty_pages 7

/-- A commit whose final flush fails, with one dirty page. -/
def c5Res : Except CErr Unit × Db :=
  commitDirtyPages dbOpenEmpty [(2, Buf.repl PAGE_SIZE 7)] 2 2 false true

/-! ## Monad unfolding lemmas and state-identity of the read-only
descent -/

/-- Computations that never move the transaction state. -/
def StateId {α : Type} (m : BtM α) : Prop := ∀ t, (m t).2 = t

/-- The preservation bundle: the snapshot is untouched, highest_page_id
never decreases, and the transaction invariant is preserved, whatever
the outcome. -/
def Pres {α : Type} (m : BtM α) : Prop :=
  ∀ t, Inv t → (m t).2.mmap = t.mmap ∧ t.highest_page_id ≤ (m t).2.highest_page_id ∧ Inv (m t).2

theorem bindB_eq {α β : Type} (x : BtM α) (f : α → BtM β) (t : WriteTxn) :
    (x >>= f) t = match x t with
      | (.ok a, t') => f a t'
      | (.error e, t') => (.error e, t') := rfl


theorem stateId_pure {α : Type} (a : α) : StateId (pure a : BtM α) := fun _ => rfl

theorem stateId_throwB {α : Type} (e : RErr) : StateId (throwB e : BtM α) := fun _ => rfl

theorem stateId_liftE {α : Type} (x : Except RErr α) : StateId (liftE x) := fun _ => rfl

theorem stateId_getTxn : StateId getTxn := fun _ => rfl

theorem stateId_bind {α β : Type} {x : BtM α} {f : α → BtM β}
    (hx : StateId x) (hf : ∀ a, StateId (f a)) : StateId (x >>= f) := by
  intro t
  rw [bindB_eq]
  rcases h : x t with ⟨r, t'⟩
  have ht' : t' = t := by have := hx t; rw [h] at this; exact this
  cases r with
  | ok a => exact (hf a t').trans ht'
  | error e => exact ht'

theorem stateId_readPage (pid : Nat) : StateId (readPage pid) := by
  intro t
  unfold readPage
  cases h : hmGet t.dirty_pages pid with
  | none =>
    dsimp only
    split <;> rfl
  | some b => rfl

theorem stateId_getPageType (pid : Nat) : StateId (getPageType pid) := by
  unfold getPageType
  refine stateId_bind (stateId_readPage pid) fun pb => ?_
  dsimp only
  split
  · exact stateId_throwB _
  · split
    · exact stateId_pure _
    · exact stateId_pure _
    · exact stateId_pure _
    · exact stateId_pure _
    · exact stateId_throwB _

theorem stateId_findChildPage (pid : Nat) (key : Buf) : StateId (findChildPage pid key) := by
  unfold findChildPage
  refine stateId_bind (stateId_readPage pid) fun pb => ?_
  dsimp only
  split
  · exact stateId_throwB _
  · refine stateId_bind (stateId_liftE _) fun sr => ?_
    refine stateId_bind (stateId_liftE _) fun eb => ?_
    exact stateId_pure _

/-! ## C9: size validation -/

theorem insertIntoLeaf_key_oversized {pid : Nat} {key value : Buf} (t : WriteTxn)
    (hk : key.size > U16_MAX) :
    insertIntoLeaf pid key value t = (.error (.btree (.keyTooLarge key.size U16_MAX)), t) := by
  unfold insertIntoLeaf
  rw [if_pos hk]
  rfl

theorem insertIntoLeaf_value_oversized {pid : Nat} {key value : Buf} (t : WriteTxn)
    (hk : ¬ key.size > U16_MAX) (hv : value.size > U16_MAX) :
    insertIntoLeaf pid key value t = (.error (.btree (.valueTooLarge value.size U16_MAX)), t) := by
  unfold insertIntoLeaf
  rw [if_neg hk, if_pos hv]
  rfl

theorem insertRecursive_oversized :
    ∀ (fuel : Nat) (t : WriteTxn) (pid : Nat) (key value : Buf),
    reachesLeaf fuel t pid key = true →
    (key.size > U16_MAX →
      insertRecursive fuel pid key value t =
        (.error (.btree (.keyTooLarge key.size U16_MAX)), t)) ∧
    (¬ key.size > U16_MAX → value.size > U16_MAX →
      insertRecursive fuel pid key value t =
        (.error (.btree (.valueTooLarge value.size U16_MAX)), t)) := by
  intro fuel
  induction fuel with
  | zero => intro t pid key value h; exact absurd h (by simp [reachesLeaf])
  | succ fuel ih =>
    intro t pid key value h
    rcases hg : getPageType pid t with ⟨r, t'⟩
    have ht' : t' = t := by
      have := stateId_getPageType pid t; rw [hg] at this; exact this
    rw [ht'] at hg
    simp only [reachesLeaf, hg] at h
    match r, h with
    | .ok .leaf, h =>
      constructor
      · intro hk
        show (getPageType pid >>= _) t = _
        rw [bindB_eq, hg]
        exact insertIntoLeaf_key_oversized t hk
      · intro hk hv
        show (getPageType pid >>= _) t = _
        rw [bindB_eq, hg]
        exact insertIntoLeaf_value_oversized t hk hv
    | .ok .branch, h =>
      rcases hf : findChildPage pid key t with ⟨rc, t''⟩
      have ht'' : t'' = t := by
        have := stateId_findChildPage pid key t; rw [hf] at this; exact this
      rw [ht''] at hf
      rw [hf] at h
      match rc, h with
      | .ok childId, h =>
        have hrec := ih t childId key value h
        constructor
        · intro hk
          show (getPageType pid >>= _) t = _
          rw [bindB_eq, hg]
          show (findChildPage pid key >>= _) t = _
          rw [bindB_eq, hf]
          show (insertRecursive fuel childId key value >>= _) t = _
          rw [bindB_eq, hrec.1 hk]
        · intro hk hv
          show (getPageType pid >>= _) t = _
          rw [bindB_eq, hg]
          show (findChildPage pid key >>= _) t = _
          rw [bindB_eq, hf]
          show (insertRecursive fuel childId key value >>= _) t = _
          rw [bindB_eq, hrec.2 hk hv]

/-- C9: WriteTxn::insert with a key over 65535 bytes returns
KeyTooLarge, and with a key in range but a value over 65535 bytes
returns ValueTooLarge, in both cases leaving the transaction state
(dirty pages, root, free list, highest page id) exactly unchanged,
whenever the read-only descent reaches a leaf (that is, on any
well-formed tree, with fuel at least the tree height). -/
theorem c9_size_validation_rejects_and_preserves :
    ∀ (fuel : Nat) (t : WriteTxn) (key value : Buf),
    reachesLeaf fuel t t.root_page_id key = true →
    (key.size > U16_MAX →
      insertOp fuel key value t = (.error (.btree (.keyTooLarge key.size U16_MAX)), t)) ∧
    (¬ key.size > U16_MAX → value.size > U16_MAX →
      insertOp fuel key value t = (.error (.btree (.valueTooLarge value.size U16_MAX)), t)) := by
  intro fuel t key value h
  have hrec := insertRecursive_oversized fuel t t.root_page_id key value h
  constructor
  · intro hk
    show (getTxn >>= _) t = _
    rw [bindB_eq]
    show (insertRecursive fuel t.root_page_id key value >>= _) t = _
    rw [bindB_eq, hrec.1 hk]
  · intro hk hv
    show (getTxn >>= _) t = _
    rw [bindB_eq]
    show (insertRecursive fuel t.root_page_id key value >>= _) t = _
    rw [bindB_eq, hrec.2 hk hv]

/-- Witness for C9 on the freshly initialised database: a 65536-byte
key is rejected with KeyTooLarge and a 65536-byte value with
ValueTooLarge, leaving the writer untouched. -/
theorem c9_size_validation_witness :
    reachesLeaf 1 txn0 txn0.root_page_id (Buf.repl 65536 0) = true ∧
    (Buf.repl 65536 0).size > U16_MAX ∧
    insertOp 1 (Buf.repl 65536 0) (bs [1]) txn0 =
      (.error (.btree (.keyTooLarge 65536 U16_MAX)), txn0) ∧
    reachesLeaf 1 txn0 txn0.root_page_id (bs [1]) = true ∧
    ¬ (bs [1]).size > U16_MAX ∧ (Buf.repl 65536 0).size > U16_MAX ∧
    insertOp 1 (bs [1]) (Buf.repl 65536 0) txn0 =
      (.error (.btree (.valueTooLarge 65536 U16_MAX)), txn0) :=
  ⟨by decide, by decide,
    (c9_size_validation_rejects_and_preserves 1 txn0 (Buf.repl 65536 0) (bs [1])
      (by decide)).1 (by decide),
    by decide, by decide, by decide,
    (c9_size_validation_rejects_and_preserves 1 txn0 (bs [1]) (Buf.repl 65536 0)
      (by decide)).2 (by decide) (by decide)⟩

end RBolt

namespace RBolt

/-! ## Byte-level helper lemmas -/

theorem writeBytes_size (d : Buf) (o : Nat) (s : Buf) : (writeBytes d o s).size = d.size := rfl

theorem get_writeBytes_lt {i o : Nat} (d s : Buf) (h : i < o) :
    (writeBytes d o s).get i = d.get i := by
  simp only [Buf.get, writeBytes]
  have : ¬ (o ≤ i ∧ i < o + s.size) := by omega
  simp only [this, if_false]
  split <;> simp [Buf.get]

theorem cw_ok_size {d : Buf} {o : Nat} {s : Buf} {r : Buf} (h : cw d o s = .ok r) :
    r.size = d.size := by
  unfold cw at h
  split at h
  · cases h; rfl
  · cases h

theorem cw_ok_get_lt {d : Buf} {o : Nat} {s : Buf} {r : Buf} {i : Nat}
    (h : cw d o s = .ok r) (hi : i < o) : r.get i = d.get i := by
  unfold cw at h
  split at h
  · cases h; exact get_writeBytes_lt d s hi
  · cases h

theorem slice_get {m : Buf} {off i : Nat} (h : off + PAGE_SIZE ≤ m.size) (hi : i < PAGE_SIZE) :
    ((m.take (off + PAGE_SIZE)).drop off).get i = m.get (off + i) := by
  simp only [Buf.get, Buf.take, Buf.drop]
  have h1 : min (off + PAGE_SIZE) m.size = off + PAGE_SIZE := by omega
  rw [h1]
  have h2 : i < off + PAGE_SIZE - off := by omega
  rw [if_pos h2, if_pos (by omega : off + i < off + PAGE_SIZE)]

theorem slice_size {m : Buf} {off : Nat} (h : off + PAGE_SIZE ≤ m.size) :
    ((m.take (off + PAGE_SIZE)).drop off).size = PAGE_SIZE := by
  simp only [Buf.take, Buf.drop]
  omega

end RBolt

namespace RBolt

/-! ## Invariant preservation over the write path -/


theorem pres_of_stateId {α : Type} {m : BtM α} (h : StateId m) : Pres m := by
  intro t ht
  rw [h t]
  exact ⟨rfl, le_refl _, ht⟩

theorem pres_bind {α β : Type} {x : BtM α} {f : α → BtM β}
    (hx : Pres x) (hf : ∀ a, Pres (f a)) : Pres (x >>= f) := by
  intro t ht
  rw [bindB_eq]
  rcases h : x t with ⟨r, t'⟩
  have hx' := hx t ht
  rw [h] at hx'
  cases r with
  | error e => exact hx'
  | ok a =>
    have hf' := (hf a) t' hx'.2.2
    exact ⟨hf'.1.trans hx'.1, le_trans hx'.2.1 hf'.2.1, hf'.2.2⟩

theorem liftE_bind {α β : Type} (x : Except RErr α) (f : α → BtM β) (t : WriteTxn) :
    (liftE x >>= f) t = match x with
      | .ok a => f a t
      | .error e => (.error e, t) := by
  rw [bindB_eq]
  cases x <;> rfl

theorem hmGet_eq_some {m : List (Nat × Buf)} {k : Nat} {b : Buf}
    (h : hmGet m k = some b) : ∃ p, p ∈ m ∧ p.1 = k ∧ p.2 = b := by
  unfold hmGet at h
  cases hf : m.find? (fun p => p.1 == k) with
  | none => rw [hf] at h; cases h
  | some p =>
    rw [hf] at h
    have hmem := List.mem_of_find?_eq_some hf
    have hkey := List.find?_some hf
    simp only [beq_iff_eq] at hkey
    exact ⟨p, hmem, hkey, by simpa using h⟩

theorem mem_hmInsert {m : List (Nat × Buf)} {k : Nat} {v : Buf} {p : Nat × Buf}
    (h : p ∈ hmInsert m k v) : p = (k, v) ∨ p ∈ m := by
  unfold hmInsert at h
  rcases List.mem_cons.mp h with h | h
  · exact Or.inl h
  · exact Or.inr (List.mem_of_mem_filter h)

/-- Full characterisation of allocate_page under an empty free list. -/
theorem allocatePage_spec {t : WriteTxn} (h : t.free_list = []) :
    allocatePage t = (.ok (t.highest_page_id + 1),
      { t with highest_page_id := t.highest_page_id + 1 }) := by
  unfold allocatePage
  rw [h]

theorem inv_setDirty {t : WriteTxn} {pid : Nat} {b : Buf} (ht : Inv t)
    (hle : pid ≤ t.highest_page_id) (hsz : b.size = PAGE_SIZE)
    (hid : pid = 2 → b.get 0 = 2) (hty : pid = 2 → b.get 8 = 3) :
    Inv ((setDirty pid b t).2) := by
  refine ⟨?_, ?_, ht.freeNil, ht.szBound, ht.hi2, ?_, ?_, ht.mmapId, ht.mmapTy⟩
  · intro p hp
    rcases mem_hmInsert hp with h | h
    · rw [h]; exact hle
    · exact ht.dirtyLe p h
  · intro p hp
    rcases mem_hmInsert hp with h | h
    · rw [h]; exact hsz
    · exact ht.dirtySz p h
  · intro p hp hk
    rcases mem_hmInsert hp with h | h
    · rw [h] at hk ⊢; exact hid hk
    · exact ht.page2Id p h hk
  · intro p hp hk
    rcases mem_hmInsert hp with h | h
    · rw [h] at hk ⊢; exact hty hk
    · exact ht.page2Ty p h hk

/-- What a successful read_page guarantees: the page id is within the
allocated range, the bytes are page-sized, and the image of page 2
carries its id byte and leaf type tag. -/
theorem readPage_ok_spec {t : WriteTxn} {pid : Nat} {b : Buf} (ht : Inv t)
    (h : (readPage pid t).1 = .ok b) :
    pid ≤ t.highest_page_id ∧ b.size = PAGE_SIZE ∧
    (pid = 2 → b.get 0 = 2) ∧ (pid = 2 → b.get 8 = 3) := by
  unfold readPage at h
  cases hd : hmGet t.dirty_pages pid with
  | some b0 =>
    rw [hd] at h
    cases h
    obtain ⟨p, hmem, hk, hv⟩ := hmGet_eq_some hd
    subst hk; subst hv
    exact ⟨ht.dirtyLe p hmem, ht.dirtySz p hmem,
      fun h2 => ht.page2Id p hmem h2, fun h2 => ht.page2Ty p hmem h2⟩
  | none =>
    rw [hd] at h
    dsimp only at h
    split at h
    · cases h
    · cases h
      rename_i hbound
      push_neg at hbound
      have hle : pid ≤ t.highest_page_id := by
        have h1 : (pid + 1) * PAGE_SIZE ≤ (t.highest_page_id + 1) * PAGE_SIZE := by
          calc (pid + 1) * PAGE_SIZE = pid * PAGE_SIZE + PAGE_SIZE := by ring
          _ ≤ t.mmap.size := hbound
          _ ≤ (t.highest_page_id + 1) * PAGE_SIZE := ht.szBound
        have := Nat.le_of_mul_le_mul_right h1 (by decide : 0 < PAGE_SIZE)
        omega
      refine ⟨hle, slice_size hbound, ?_, ?_⟩
      · intro h2; subst h2
        rw [slice_get hbound (by decide)]
        exact ht.mmapId
      · intro h2; subst h2
        rw [slice_get hbound (by decide)]
        exact ht.mmapTy

end RBolt

namespace RBolt

theorem eBind_ok {α β : Type} (a : α) (f : α → Except RErr β) :
    (Except.ok a >>= f) = f a := rfl

theorem ePure {α : Type} (a : α) : (pure a : Except RErr α) = .ok a := rfl

theorem eBind_err {α β : Type} (e : RErr) (f : α → Except RErr β) :
    ((Except.error e : Except RErr α) >>= f) = .error e := rfl

theorem usizeSub_ok {a b c : Nat} (h : usizeSub a b = .ok c) : b ≤ a ∧ c = a - b := by
  unfold usizeSub at h
  split at h
  · cases h; exact ⟨‹_›, rfl⟩
  · cases h

theorem cw_ok {d : Buf} {o : Nat} {s r : Buf} (h : cw d o s = .ok r) :
    o + s.size ≤ d.size ∧ r = writeBytes d o s := by
  unfold cw at h
  split at h
  · cases h; exact ⟨‹_›, rfl⟩
  · cases h

/-- Invariant carried through one step of the write_leaf_page loop: the
page stays page-sized and the first sixteen bytes (the page header) are
untouched, since a successful step derives both body pointers by
subtracting the header size from the payload cursor. -/
theorem writeLeafStep_inv {st st' : Buf × Nat} {p : Nat × (Buf × Buf)} {g0 g8 : Nat}
    (hsz : st.1.size = PAGE_SIZE) (h0 : st.1.get 0 = g0) (h8 : st.1.get 8 = g8)
    (h : writeLeafStep st p = .ok st') :
    st'.1.size = PAGE_SIZE ∧ st'.1.get 0 = g0 ∧ st'.1.get 8 = g8 := by
  rcases st with ⟨pb, off⟩
  rcases p with ⟨i, key, value⟩
  unfold writeLeafStep at h
  dsimp only at h hsz h0 h8
  rcases h1 : usizeSub off value.size with e | off1 <;> rw [h1] at h
  · cases h
  rw [eBind_ok] at h
  rcases h2 : cw pb off1 value with e | pb2 <;> rw [h2] at h
  · cases h
  rw [eBind_ok] at h
  rcases h3 : usizeSub off1 PAGE_HEADER_SIZE with e | vptrBody <;> rw [h3] at h
  · cases h
  rw [eBind_ok] at h
  rcases h4 : usizeSub off1 key.size with e | off2 <;> rw [h4] at h
  · cases h
  rw [eBind_ok] at h
  rcases h5 : cw pb2 off2 key with e | pb3 <;> rw [h5] at h
  · cases h
  rw [eBind_ok] at h
  rcases h6 : usizeSub off2 PAGE_HEADER_SIZE with e | kptrBody <;> rw [h6] at h
  · cases h
  rw [eBind_ok] at h
  rcases h7 : cw pb3 (PAGE_HEADER_SIZE + i * LEAF_ELEMENT_SIZE)
      (bs (le16 key.size ++ le16 value.size ++ le16 kptrBody ++ le16 vptrBody)) with e | pb4 <;>
    rw [h7] at h
  · cases h
  rw [eBind_ok] at h
  cases h
  have hb1 : 16 ≤ off1 := by
    have := (usizeSub_ok h3).1; simpa [PAGE_HEADER_SIZE] using this
  have hb2 : 16 ≤ off2 := by
    have := (usizeSub_ok h6).1; simpa [PAGE_HEADER_SIZE] using this
  refine ⟨?_, ?_, ?_⟩
  · rw [cw_ok_size h7, cw_ok_size h5, cw_ok_size h2]; exact hsz
  · rw [cw_ok_get_lt h7 (by simp only [PAGE_HEADER_SIZE, LEAF_ELEMENT_SIZE]; omega),
      cw_ok_get_lt h5 (by omega), cw_ok_get_lt h2 (by omega)]
    exact h0
  · rw [cw_ok_get_lt h7 (by simp only [PAGE_HEADER_SIZE, LEAF_ELEMENT_SIZE]; omega),
      cw_ok_get_lt h5 (by omega), cw_ok_get_lt h2 (by omega)]
    exact h8

theorem writeLeafFold_inv {g0 g8 : Nat} :
    ∀ (l : List (Nat × (Buf × Buf))) (st st' : Buf × Nat),
    st.1.size = PAGE_SIZE → st.1.get 0 = g0 → st.1.get 8 = g8 →
    l.foldlM writeLeafStep st = .ok st' →
    st'.1.size = PAGE_SIZE ∧ st'.1.get 0 = g0 ∧ st'.1.get 8 = g8 := by
  intro l
  induction l with
  | nil =>
    intro st st' hsz h0 h8 h
    cases h
    exact ⟨hsz, h0, h8⟩
  | cons a l ih =>
    intro st st' hsz h0 h8 h
    have hstep : List.foldlM writeLeafStep st (a :: l) =
        writeLeafStep st a >>= fun st1 => List.foldlM writeLeafStep st1 l := rfl
    rw [hstep] at h
    rcases h1 : writeLeafStep st a with e | st1 <;> rw [h1] at h
    · cases h
    rw [eBind_ok] at h
    obtain ⟨hsz1, h01, h81⟩ := writeLeafStep_inv hsz h0 h8 h1
    exact ih st1 st' hsz1 h01 h81 h

end RBolt

namespace RBolt

theorem writeBranchStep_size {st st' : Buf × Nat} {p : Nat × (Buf × Nat)}
    (hsz : st.1.size = PAGE_SIZE) (h : writeBranchStep st p = .ok st') :
    st'.1.size = PAGE_SIZE := by
  rcases st with ⟨pb, off⟩
  rcases p with ⟨i, key, childId⟩
  unfold writeBranchStep at h
  dsimp only at h hsz
  by_cases hk : key.size == 0
  · rw [if_pos hk, ePure, eBind_ok] at h
    dsimp only at h
    rcases h7 : cw pb (PAGE_HEADER_SIZE + i * BRANCH_ELEMENT_SIZE)
        (bs (le64 childId ++ le16 key.size ++ le16 0 ++ le32 0)) with e | pb4 <;> rw [h7] at h
    · cases h
    rw [eBind_ok] at h
    cases h
    rw [cw_ok_size h7]; exact hsz
  · rw [if_neg hk] at h
    rcases h1 : usizeSub off key.size with e | off1 <;> rw [h1] at h
    · cases h
    rw [eBind_ok] at h
    rcases h2 : cw pb off1 key with e | pb2 <;> rw [h2] at h
    · cases h
    rw [eBind_ok, ePure, eBind_ok] at h
    dsimp only at h
    rcases h7 : cw pb2 (PAGE_HEADER_SIZE + i * BRANCH_ELEMENT_SIZE)
        (bs (le64 childId ++ le16 key.size ++ le16 off1 ++ le32 0)) with e | pb4 <;> rw [h7] at h
    · cases h
    rw [eBind_ok] at h
    cases h
    rw [cw_ok_size h7, cw_ok_size h2]; exact hsz

theorem writeBranchFold_size :
    ∀ (l : List (Nat × (Buf × Nat))) (st st' : Buf × Nat),
    st.1.size = PAGE_SIZE →
    l.foldlM writeBranchStep st = .ok st' →
    st'.1.size = PAGE_SIZE := by
  intro l
  induction l with
  | nil => intro st st' hsz h; cases h; exact hsz
  | cons a l ih =>
    intro st st' hsz h
    have hstep : List.foldlM writeBranchStep st (a :: l) =
        writeBranchStep st a >>= fun st1 => List.foldlM writeBranchStep st1 l := rfl
    rw [hstep] at h
    rcases h1 : writeBranchStep st a with e | st1 <;> rw [h1] at h
    · cases h
    rw [eBind_ok] at h
    exact ih st1 st' (writeBranchStep_size hsz h1) h

/-- Unfolding of get_page_for_write. -/
theorem gpfw_eq (pid : Nat) (t : WriteTxn) :
    getPageForWrite pid t = (match hmGet t.dirty_pages pid with
      | some b => (.ok b, t)
      | none => match readPage pid t with
        | (.ok b0, t1) => (.ok b0, { t1 with dirty_pages := hmInsert t1.dirty_pages pid b0 })
        | (.error e, t1) => (.error e, t1)) := by
  show (getTxn >>= _) t = _
  rw [bindB_eq]
  show (match hmGet t.dirty_pages pid with
    | some b => pure b
    | none => readPage pid >>= fun b => setDirty pid b >>= fun _ => pure b) t = _
  cases hd : hmGet t.dirty_pages pid with
  | some b0 => rfl
  | none =>
    dsimp only
    rw [bindB_eq]
    rcases hr : readPage pid t with ⟨r, t1⟩
    cases r <;> rfl

/-- Full characterisation of get_page_for_write on success. -/
theorem gpfw_ok_spec {t : WriteTxn} {pid : Nat} {b : Buf} (ht : Inv t)
    (h : (getPageForWrite pid t).1 = .ok b) :
    pid ≤ t.highest_page_id ∧ b.size = PAGE_SIZE ∧
    (pid = 2 → b.get 0 = 2) ∧ (pid = 2 → b.get 8 = 3) ∧
    (getPageForWrite pid t).2.mmap = t.mmap ∧
    (getPageForWrite pid t).2.highest_page_id = t.highest_page_id ∧
    (getPageForWrite pid t).2.free_list = t.free_list ∧
    Inv ((getPageForWrite pid t).2) := by
  rw [gpfw_eq] at h ⊢
  cases hd : hmGet t.dirty_pages pid with
  | some b0 =>
    simp only [hd] at h ⊢
    cases h
    obtain ⟨p, hmem, hk, hv⟩ := hmGet_eq_some hd
    subst hk; subst hv
    exact ⟨ht.dirtyLe p hmem, ht.dirtySz p hmem,
      fun h2 => ht.page2Id p hmem h2, fun h2 => ht.page2Ty p hmem h2,
      trivial, trivial, trivial, ht⟩
  | none =>
    simp only [hd] at h ⊢
    rcases hr : readPage pid t with ⟨r, t1⟩
    have ht1 : t1 = t := by
      have := stateId_readPage pid t; rw [hr] at this; exact this
    simp only [hr] at h ⊢
    rw [ht1] at h ⊢
    cases r with
    | error e => cases h
    | ok b0 =>
      cases h
      have hspec := readPage_ok_spec ht (by rw [hr])
      refine ⟨hspec.1, hspec.2.1, hspec.2.2.1, hspec.2.2.2, rfl, rfl, rfl, ?_⟩
      exact inv_setDirty ht hspec.1 hspec.2.1
        (fun h2 => hspec.2.2.1 h2) (fun h2 => hspec.2.2.2 h2)

/-- get_page_for_write preserves the invariant on every path. -/
theorem pres_getPageForWrite (pid : Nat) : Pres (getPageForWrite pid) := by
  intro t ht
  rw [gpfw_eq]
  cases hd : hmGet t.dirty_pages pid with
  | some b0 => exact ⟨rfl, le_refl _, ht⟩
  | none =>
    dsimp only
    rcases hr : readPage pid t with ⟨r, t1⟩
    have ht1 : t1 = t := by
      have := stateId_readPage pid t; rw [hr] at this; exact this
    rw [ht1]
    cases r with
    | error e => exact ⟨rfl, le_refl _, ht⟩
    | ok b0 =>
      have hspec := readPage_ok_spec ht (by rw [hr])
      exact ⟨rfl, le_refl _, inv_setDirty ht hspec.1 hspec.2.1
        (fun h2 => hspec.2.2.1 h2) (fun h2 => hspec.2.2.2 h2)⟩

end RBolt

namespace RBolt

theorem get_writeBytes_in {d : Buf} {o i : Nat} {s : Buf}
    (h1 : o ≤ i) (h2 : i < o + s.size) (h3 : i < d.size) :
    (writeBytes d o s).get i = s.get (i - o) := by
  simp only [Buf.get, writeBytes]
  rw [if_pos h3, if_pos ⟨h1, h2⟩]

theorem bs_get0_le64 (pid : Nat) (l : Bytes) : (bs (le64 pid ++ l)).get 0 = pid % 256 := by
  simp [bs, Buf.get, le64]

theorem bs_get8_le64 (pid a : Nat) (l : Bytes) : (bs (le64 pid ++ a :: l)).get 8 = a := by
  simp [bs, Buf.get, le64]

theorem inv_setRoot {t : WriteTxn} (ht : Inv t) (pid : Nat) : Inv ((setRoot pid t).2) :=
  ⟨ht.dirtyLe, ht.dirtySz, ht.freeNil, ht.szBound, ht.hi2,
   ht.page2Id, ht.page2Ty, ht.mmapId, ht.mmapTy⟩

/-- write_leaf_page keeps the invariant whenever the target page id is
within the allocated range: on success the written image is page-sized
and keeps the id and type bytes of its header. -/
theorem writeLeafPage_inv {pid : Nat} {kvs : List (Buf × Buf)} {t : WriteTxn}
    (ht : Inv t) (hle : pid ≤ t.highest_page_id) :
    (writeLeafPage pid kvs t).2.mmap = t.mmap ∧
    (writeLeafPage pid kvs t).2.highest_page_id = t.highest_page_id ∧
    (writeLeafPage pid kvs t).2.free_list = t.free_list ∧
    Inv ((writeLeafPage pid kvs t).2) := by
  unfold writeLeafPage
  rw [liftE_bind]
  rcases h1 : cw (Buf.repl PAGE_SIZE 0) 0 (bs (le64 pid ++ [3, 0] ++ le16 kvs.length ++ le32 0))
    with e | pb1
  · exact ⟨rfl, rfl, rfl, ht⟩
  · dsimp only
    rw [liftE_bind]
    rcases h2 : (kvs.enum).foldlM writeLeafStep (pb1, PAGE_SIZE) with e | st
    · exact ⟨rfl, rfl, rfl, ht⟩
    · obtain ⟨hbound, hw⟩ := cw_ok h1
      have hsz1 : pb1.size = PAGE_SIZE := by rw [hw]; rfl
      have hfold := writeLeafFold_inv (kvs.enum) (pb1, PAGE_SIZE) st hsz1 rfl rfl h2
      have hsz : st.1.size = PAGE_SIZE := hfold.1
      have hget0 : st.1.get 0 = pb1.get 0 := hfold.2.1
      have hget8 : st.1.get 8 = pb1.get 8 := hfold.2.2
      have hb0 : pb1.get 0 = pid % 256 := by
        rw [hw, get_writeBytes_in (Nat.zero_le 0) (by simp [bs, le64]) (by simp [Buf.repl, writeBytes, PAGE_SIZE])]
        exact bs_get0_le64 pid _
      have hb8 : pb1.get 8 = 3 := by
        rw [hw, get_writeBytes_in (Nat.zero_le 8) (by simp [bs, le64]) (by simp [Buf.repl, writeBytes, PAGE_SIZE])]
        have : (le64 pid ++ [3, 0] ++ le16 kvs.length ++ le32 0) =
            le64 pid ++ 3 :: 0 :: (le16 kvs.length ++ le32 0) := by simp
        rw [this]
        exact bs_get8_le64 pid 3 _
      refine ⟨rfl, rfl, rfl, ?_⟩
      refine inv_setDirty ht hle hsz ?_ ?_
      · intro hp2; rw [hget0, hb0, hp2]
      · intro _; rw [hget8, hb8]

/-- Bumping the allocator preserves the invariant. -/
theorem inv_allocBump {t : WriteTxn} (ht : Inv t) :
    Inv { t with highest_page_id := t.highest_page_id + 1 } := by
  refine ⟨?_, ht.dirtySz, ht.freeNil, ?_, ?_, ht.page2Id, ht.page2Ty, ht.mmapId, ht.mmapTy⟩
  · intro p hp; exact le_trans (ht.dirtyLe p hp) (Nat.le_succ _)
  · exact le_trans ht.szBound (by simp only [PAGE_SIZE]; omega)
  · exact le_trans ht.hi2 (Nat.le_succ _)

theorem pres_allocatePage : Pres allocatePage := by
  intro t ht
  rw [allocatePage_spec ht.freeNil]
  exact ⟨rfl, Nat.le_succ _, inv_allocBump ht⟩

theorem getTxn_eq (t : WriteTxn) : getTxn t = (.ok t, t) := rfl

theorem setDirty_eq (pid : Nat) (b : Buf) (t : WriteTxn) :
    setDirty pid b t = (.ok (), { t with dirty_pages := hmInsert t.dirty_pages pid b }) := rfl

theorem setRoot_eq (pid : Nat) (t : WriteTxn) :
    setRoot pid t = (.ok (), { t with root_page_id := pid }) := rfl

/-- split_root preserves the invariant: the new root id comes from the
allocator (at least 3, so never page 2). -/
theorem pres_splitRoot (sep : Buf) (npid : Nat) : Pres (splitRoot sep npid) := by
  intro t ht
  have base : ∀ t2 : WriteTxn, t2.mmap = t.mmap → t2.highest_page_id = t.highest_page_id + 1 →
      Inv t2 → t2.mmap = t.mmap ∧ t.highest_page_id ≤ t2.highest_page_id ∧ Inv t2 :=
    fun t2 hm hh hi => ⟨hm, by omega, hi⟩
  unfold splitRoot
  rw [bindB_eq, getTxn_eq]
  dsimp only
  rw [bindB_eq, allocatePage_spec ht.freeNil]
  dsimp only
  rw [liftE_bind]
  rcases hko : usizeSub PAGE_BODY_SIZE sep.size with e | keyOffset
  · exact base _ rfl rfl (inv_allocBump ht)
  dsimp only
  rw [liftE_bind]
  rcases hcw1 : cw (Buf.repl PAGE_SIZE 0) (PAGE_HEADER_SIZE + keyOffset) sep with e | pb1
  · exact base _ rfl rfl (inv_allocBump ht)
  dsimp only
  rw [liftE_bind]
  rcases hcw2 : cw pb1 0 (bs (le64 (t.highest_page_id + 1) ++ [4, 0] ++ le16 1 ++ le32 0))
    with e | pb2
  · exact base _ rfl rfl (inv_allocBump ht)
  dsimp only
  rw [liftE_bind]
  rcases hcw3 : cw pb2 PAGE_HEADER_SIZE (bs (le64 t.root_page_id ++ le16 0 ++ le16 0 ++ le32 0))
    with e | pb3
  · exact base _ rfl rfl (inv_allocBump ht)
  dsimp only
  rw [liftE_bind]
  rcases hcw4 : cw pb3 (PAGE_HEADER_SIZE + BRANCH_ELEMENT_SIZE)
      (bs (le64 npid ++ le16 sep.size ++ le16 keyOffset ++ le32 0)) with e | pb4
  · exact base _ rfl rfl (inv_allocBump ht)
  dsimp only
  rw [bindB_eq, setDirty_eq]
  dsimp only
  rw [setRoot_eq]
  refine ⟨rfl, Nat.le_succ _, ?_⟩
  have hsz : pb4.size = PAGE_SIZE := by
    rw [(cw_ok hcw4).2, writeBytes_size, (cw_ok hcw3).2, writeBytes_size,
      (cw_ok hcw2).2, writeBytes_size, (cw_ok hcw1).2, writeBytes_size]
    rfl
  have hne2 : t.highest_page_id + 1 ≠ 2 := by have := ht.hi2; omega
  exact inv_setRoot (inv_setDirty (inv_allocBump ht) (le_refl _) hsz
    (fun h2 => absurd h2 hne2) (fun h2 => absurd h2 hne2)) _

end RBolt

namespace RBolt

/-- split_leaf preserves the invariant: the original page id was
readable (hence within range) and the new page id comes from the
allocator. -/
theorem pres_splitLeaf (pid : Nat) (nk nv : Buf) : Pres (splitLeaf pid nk nv) := by
  intro t ht
  unfold splitLeaf
  rw [bindB_eq]
  rcases hr : readPage pid t with ⟨r, t1⟩
  have ht1 : t1 = t := by
    have := stateId_readPage pid t; rw [hr] at this; exact this
  rw [ht1]
  cases r with
  | error e => exact ⟨rfl, le_refl _, ht⟩
  | ok pb =>
    have hpid : pid ≤ t.highest_page_id := by
      rw [ht1] at hr
      exact (readPage_ok_spec ht (by rw [hr])).1
    dsimp only
    split
    · exact ⟨rfl, le_refl _, ht⟩
    · rw [liftE_bind]
      rcases hc : collectLeafKVs (pageBody pb) (rU16 pb 10) nk nv with e | kvs
      · exact ⟨rfl, le_refl _, ht⟩
      dsimp only
      rw [bindB_eq, allocatePage_spec ht.freeNil]
      dsimp only
      rw [bindB_eq]
      have hInv2 : Inv { t with highest_page_id := t.highest_page_id + 1 } := inv_allocBump ht
      have hw1 := @writeLeafPage_inv pid (kvs.take ((kvs.length + 1) / 2)) _
        hInv2 (le_trans hpid (Nat.le_succ _))
      rcases hwr1 : writeLeafPage pid (kvs.take ((kvs.length + 1) / 2))
          { t with highest_page_id := t.highest_page_id + 1 } with ⟨r1, t3⟩
      rw [hwr1] at hw1
      cases r1 with
      | error e => exact ⟨hw1.1, by rw [hw1.2.1]; exact Nat.le_succ _, hw1.2.2.2⟩
      | ok u =>
        dsimp only
        rw [bindB_eq]
        have hw2 := @writeLeafPage_inv (t.highest_page_id + 1)
          (kvs.drop ((kvs.length + 1) / 2)) _ hw1.2.2.2 (by rw [hw1.2.1])
        rcases hwr2 : writeLeafPage (t.highest_page_id + 1) (kvs.drop ((kvs.length + 1) / 2)) t3
          with ⟨r2, t4⟩
        rw [hwr2] at hw2
        have hmm : t4.mmap = t.mmap := by rw [hw2.1, hw1.1]
        have hhi : t.highest_page_id ≤ t4.highest_page_id := by
          rw [hw2.2.1, hw1.2.1]; exact Nat.le_succ _
        cases r2 with
        | error e => exact ⟨hmm, hhi, hw2.2.2.2⟩
        | ok u2 =>
          dsimp only
          rcases kvs.get? ((kvs.length + 1) / 2) with _ | kv
          · exact ⟨hmm, hhi, hw2.2.2.2⟩
          · exact ⟨hmm, hhi, hw2.2.2.2⟩

end RBolt

namespace RBolt

theorem pureB_bind {α β : Type} (a : α) (f : α → BtM β) (t : WriteTxn) :
    ((pure a : BtM α) >>= f) t = f a t := rfl

theorem throwB_bind {α β : Type} (e : RErr) (f : α → BtM β) (t : WriteTxn) :
    ((throwB e : BtM α) >>= f) t = (.error e, t) := rfl

/-- insert_into_leaf preserves the invariant on every path: the page it
rewrites was obtained through get_page_for_write (hence within range),
all in-place writes land strictly above byte 9 of the page, and the
split path is covered by the split_leaf lemma. -/
theorem pres_insertIntoLeaf (pid : Nat) (key value : Buf) :
    Pres (insertIntoLeaf pid key value) := by
  intro t ht
  unfold insertIntoLeaf
  split
  · exact ⟨rfl, le_refl _, ht⟩
  split
  · exact ⟨rfl, le_refl _, ht⟩
  rw [bindB_eq]
  rcases hg : getPageForWrite pid t with ⟨rg, t1⟩
  cases rg with
  | error e =>
    have hp := pres_getPageForWrite pid t ht
    rw [hg] at hp
    exact hp
  | ok pb =>
    have hspec := gpfw_ok_spec ht (by rw [hg])
    rw [hg] at hspec
    have hmm1 : t1.mmap = t.mmap := hspec.2.2.2.2.1
    have hhi1 : t1.highest_page_id = t.highest_page_id := hspec.2.2.2.2.2.1
    have hInv1 : Inv t1 := hspec.2.2.2.2.2.2.2
    have hpid1 : pid ≤ t1.highest_page_id := by rw [hhi1]; exact hspec.1
    have hpbsz : pb.size = PAGE_SIZE := hspec.2.1
    have hpb0 : pid = 2 → pb.get 0 = 2 := hspec.2.2.1
    have hpb8 : pid = 2 → pb.get 8 = 3 := hspec.2.2.2.1
    have base : t1.mmap = t.mmap ∧ t.highest_page_id ≤ t1.highest_page_id ∧ Inv t1 :=
      ⟨hmm1, by rw [hhi1], hInv1⟩
    dsimp only
    split
    · exact base
    rw [liftE_bind]
    rcases hmk : (if (rU16 pb 10 == 0) = true then (.ok PAGE_BODY_SIZE : Except RErr Nat)
        else leafMinKptr (pageBody pb) (rU16 pb 10)) with e | mval
    · exact base
    dsimp only
    rw [liftE_bind]
    rcases husub : usizeSub mval (key.size + value.size) with e | ko
    · exact base
    dsimp only
    split
    · -- split path
      have hp := pres_splitLeaf pid key value t1 hInv1
      refine ⟨hp.1.trans hmm1, ?_, hp.2.2⟩
      calc t.highest_page_id = t1.highest_page_id := hhi1.symm
      _ ≤ _ := hp.2.1
    · rw [liftE_bind]
      rcases hsr : searchLeafElements (pageBody pb) (rU16 pb 10) key with e | sr
      · exact base
      dsimp only
      rw [liftE_bind]
      rcases hcwk : cw pb (PAGE_HEADER_SIZE + ko) key with e | pbk
      · exact base
      dsimp only
      rw [liftE_bind]
      rcases hcwv : cw pbk (PAGE_HEADER_SIZE + (ko + key.size)) value with e | pbv
      · exact base
      dsimp only
      have hszv : pbv.size = PAGE_SIZE := by
        rw [cw_ok_size hcwv, cw_ok_size hcwk]; exact hpbsz
      have h0v : pbv.get 0 = pb.get 0 := by
        rw [cw_ok_get_lt hcwv (by simp only [PAGE_HEADER_SIZE]; omega),
          cw_ok_get_lt hcwk (by simp only [PAGE_HEADER_SIZE]; omega)]
      have h8v : pbv.get 8 = pb.get 8 := by
        rw [cw_ok_get_lt hcwv (by simp only [PAGE_HEADER_SIZE]; omega),
          cw_ok_get_lt hcwk (by simp only [PAGE_HEADER_SIZE]; omega)]
      split
      · -- update-in-place path
        rw [liftE_bind]
        rcases hcwe : cw pbv (PAGE_HEADER_SIZE + sr.1 * LEAF_ELEMENT_SIZE)
            (bs (le16 key.size ++ le16 value.size ++ le16 ko ++ le16 (ko + key.size)))
          with e | pbe
        · exact base
        dsimp only
        rw [bindB_eq, setDirty_eq]
        dsimp only
        refine ⟨hmm1, le_of_eq hhi1.symm, ?_⟩
        refine inv_setDirty hInv1 hpid1 ?_ ?_ ?_
        · rw [cw_ok_size hcwe]; exact hszv
        · intro h2
          rw [cw_ok_get_lt hcwe (by simp only [PAGE_HEADER_SIZE, LEAF_ELEMENT_SIZE]; omega),
            h0v]
          exact hpb0 h2
        · intro h2
          rw [cw_ok_get_lt hcwe (by simp only [PAGE_HEADER_SIZE, LEAF_ELEMENT_SIZE]; omega),
            h8v]
          exact hpb8 h2
      · -- fresh-insert path, with or without the directory shift
        rw [liftE_bind]
        rcases hsh : (if sr.1 < rU16 pb 10 then do
            let src ← sl pbv (PAGE_HEADER_SIZE + sr.1 * LEAF_ELEMENT_SIZE)
              (PAGE_HEADER_SIZE + rU16 pb 10 * LEAF_ELEMENT_SIZE)
            cw pbv (PAGE_HEADER_SIZE + (sr.1 + 1) * LEAF_ELEMENT_SIZE) src
          else (pure pbv : Except RErr Buf)) with e | pbm
        · rw [hsh]
          exact base
        rw [hsh]
        have hm3 : pbm.size = PAGE_SIZE ∧ pbm.get 0 = pb.get 0 ∧ pbm.get 8 = pb.get 8 := by
          split at hsh
          · rcases hsl2 : sl pbv (PAGE_HEADER_SIZE + sr.1 * LEAF_ELEMENT_SIZE)
                (PAGE_HEADER_SIZE + rU16 pb 10 * LEAF_ELEMENT_SIZE) with e2 | src
            · rw [hsl2, eBind_err] at hsh
              exact absurd hsh (by simp)
            · rw [hsl2, eBind_ok] at hsh
              refine ⟨by rw [cw_ok_size hsh]; exact hszv, ?_, ?_⟩
              · rw [cw_ok_get_lt hsh
                  (by simp only [PAGE_HEADER_SIZE, LEAF_ELEMENT_SIZE]; omega)]
                exact h0v
              · rw [cw_ok_get_lt hsh
                  (by simp only [PAGE_HEADER_SIZE, LEAF_ELEMENT_SIZE]; omega)]
                exact h8v
          · rw [ePure] at hsh
            cases hsh
            exact ⟨hszv, h0v, h8v⟩
        dsimp only
        rw [liftE_bind]
        rcases hcwe : cw pbm (PAGE_HEADER_SIZE + sr.1 * LEAF_ELEMENT_SIZE)
            (bs (le16 key.size ++ le16 value.size ++ le16 ko ++ le16 (ko + key.size)))
          with e | pbe
        · exact base
        dsimp only
        rw [liftE_bind]
        rcases hcwc : cw pbe 10 (bs (le16 (rU16 pb 10 + 1))) with e | pbf
        · exact base
        dsimp only
        rw [bindB_eq, setDirty_eq]
        dsimp only
        refine ⟨hmm1, le_of_eq hhi1.symm, ?_⟩
        refine inv_setDirty hInv1 hpid1 ?_ ?_ ?_
        · rw [cw_ok_size hcwc, cw_ok_size hcwe]; exact hm3.1
        · intro h2
          rw [cw_ok_get_lt hcwc (by omega),
            cw_ok_get_lt hcwe (by simp only [PAGE_HEADER_SIZE, LEAF_ELEMENT_SIZE]; omega),
            hm3.2.1]
          exact hpb0 h2
        · intro h2
          rw [cw_ok_get_lt hcwc (by omega),
            cw_ok_get_lt hcwe (by simp only [PAGE_HEADER_SIZE, LEAF_ELEMENT_SIZE]; omega),
            hm3.2.2]
          exact hpb8 h2

/-- write_branch_page keeps the invariant whenever the target page id
is within the allocated range and is not the root leaf page 2: the
written image is page-sized, and the page-2 header conditions are
vacuous. -/
theorem writeBranchPage_inv {pid : Nat} {entries : List (Buf × Nat)} {t : WriteTxn}
    (ht : Inv t) (hle : pid ≤ t.highest_page_id) (hne : pid ≠ 2) :
    (writeBranchPage pid entries t).2.mmap = t.mmap ∧
    (writeBranchPage pid entries t).2.highest_page_id = t.highest_page_id ∧
    (writeBranchPage pid entries t).2.free_list = t.free_list ∧
    Inv ((writeBranchPage pid entries t).2) := by
  unfold writeBranchPage
  rw [liftE_bind]
  rcases h0 : usizeSub entries.length 1 with e | cnt
  · exact ⟨rfl, rfl, rfl, ht⟩
  dsimp only
  rw [liftE_bind]
  rcases h1 : cw (Buf.repl PAGE_SIZE 0) 0 (bs (le64 pid ++ [4, 0] ++ le16 cnt ++ le32 0))
    with e | pb1
  · exact ⟨rfl, rfl, rfl, ht⟩
  dsimp only
  rw [liftE_bind]
  rcases h2 : (entries.enum).foldlM writeBranchStep (pb1, PAGE_BODY_SIZE) with e | st
  · exact ⟨rfl, rfl, rfl, ht⟩
  dsimp only
  rw [setDirty_eq]
  have hsz1 : pb1.size = PAGE_SIZE := by rw [(cw_ok h1).2, writeBytes_size]; rfl
  have hsz : st.1.size = PAGE_SIZE := writeBranchFold_size _ _ _ hsz1 h2
  exact ⟨rfl, rfl, rfl,
    inv_setDirty ht hle hsz (fun hc => absurd hc hne) (fun hc => absurd hc hne)⟩

/-- split_branch preserves the invariant when the split page is not the
root leaf page 2: both rewritten branch images go to in-range page ids
other than 2. -/
theorem pres_splitBranch (pid : Nat) (nk : Buf) (ncid : Nat) (hne : pid ≠ 2) :
    Pres (splitBranch pid nk ncid) := by
  intro t ht
  unfold splitBranch
  rw [bindB_eq]
  rcases hr : readPage pid t with ⟨r, t1⟩
  have ht1 : t1 = t := by have := stateId_readPage pid t; rw [hr] at this; exact this
  rw [ht1]
  cases r with
  | error e => exact ⟨rfl, le_refl _, ht⟩
  | ok pb =>
    have hpid : pid ≤ t.highest_page_id := by
      rw [ht1] at hr
      exact (readPage_ok_spec ht (by rw [hr])).1
    dsimp only
    split
    · exact ⟨rfl, le_refl _, ht⟩
    · rw [liftE_bind]
      rcases hc : collectBranchEntries (pageBody pb) (rU16 pb 10) nk ncid with e | entries
      · exact ⟨rfl, le_refl _, ht⟩
      dsimp only
      rcases hmid : entries.get? (entries.length / 2) with _ | mid
      · exact ⟨rfl, le_refl _, ht⟩
      · dsimp only
        rw [bindB_eq, allocatePage_spec ht.freeNil]
        dsimp only
        rw [bindB_eq]
        have hInv2 : Inv { t with highest_page_id := t.highest_page_id + 1 } := inv_allocBump ht
        have hw1 := @writeBranchPage_inv pid
          (entries.take (entries.length / 2)) _ hInv2
          (le_trans hpid (Nat.le_succ _)) hne
        rcases hwr1 : writeBranchPage pid (entries.take (entries.length / 2))
            { t with highest_page_id := t.highest_page_id + 1 } with ⟨r1, t3⟩
        rw [hwr1] at hw1
        cases r1 with
        | error e => exact ⟨hw1.1, by rw [hw1.2.1]; exact Nat.le_succ _, hw1.2.2.2⟩
        | ok u =>
          dsimp only
          rw [bindB_eq]
          have hne2 : t.highest_page_id + 1 ≠ 2 := by have := ht.hi2; omega
          have hw2 := @writeBranchPage_inv (t.highest_page_id + 1)
            ((bs [], mid.2) :: entries.drop (entries.length / 2 + 1)) _
            hw1.2.2.2 (by rw [hw1.2.1]) hne2
          rcases hwr2 : writeBranchPage (t.highest_page_id + 1)
              ((bs [], mid.2) :: entries.drop (entries.length / 2 + 1)) t3 with ⟨r2, t4⟩
          rw [hwr2] at hw2
          have hmm : t4.mmap = t.mmap := by rw [hw2.1, hw1.1]
          have hhi : t.highest_page_id ≤ t4.highest_page_id := by
            rw [hw2.2.1, hw1.2.1]; exact Nat.le_succ _
          cases r2 with
          | error e => exact ⟨hmm, hhi, hw2.2.2.2⟩
          | ok u2 => exact ⟨hmm, hhi, hw2.2.2.2⟩

/-- insert_into_branch preserves the invariant when the target page is
not the root leaf page 2: the in-place path rewrites an in-range page
and the overflow path is covered by the split_branch lemma. -/
theorem pres_insertIntoBranch (pid : Nat) (key : Buf) (cid : Nat) (hne : pid ≠ 2) :
    Pres (insertIntoBranch pid key cid) := by
  intro t ht
  unfold insertIntoBranch
  rw [bindB_eq]
  rcases hg : getPageForWrite pid t with ⟨rg, t1⟩
  cases rg with
  | error e =>
    have hp := pres_getPageForWrite pid t ht
    rw [hg] at hp
    exact hp
  | ok pb =>
    have hspec := gpfw_ok_spec ht (by rw [hg])
    rw [hg] at hspec
    have hmm1 : t1.mmap = t.mmap := hspec.2.2.2.2.1
    have hhi1 : t1.highest_page_id = t.highest_page_id := hspec.2.2.2.2.2.1
    have hInv1 : Inv t1 := hspec.2.2.2.2.2.2.2
    have hpid1 : pid ≤ t1.highest_page_id := by rw [hhi1]; exact hspec.1
    have hpbsz : pb.size = PAGE_SIZE := hspec.2.1
    have base : t1.mmap = t.mmap ∧ t.highest_page_id ≤ t1.highest_page_id ∧ Inv t1 :=
      ⟨hmm1, by rw [hhi1], hInv1⟩
    dsimp only
    split
    · exact base
    rw [liftE_bind]
    rcases hmk : (if (rU16 pb 10 == 0) = true then (.ok PAGE_BODY_SIZE : Except RErr Nat)
        else branchMinKptr (pageBody pb) (rU16 pb 10 + 1)) with e | mval
    · exact base
    dsimp only
    rw [liftE_bind]
    rcases husub : usizeSub mval key.size with e | ko
    · exact base
    dsimp only
    split
    · have hp := pres_splitBranch pid key cid hne t1 hInv1
      refine ⟨hp.1.trans hmm1, ?_, hp.2.2⟩
      calc t.highest_page_id = t1.highest_page_id := hhi1.symm
      _ ≤ _ := hp.2.1
    · rw [liftE_bind]
      rcases hsr : searchBranchElements (pageBody pb) (rU16 pb 10 + 1) key with e | sr
      · exact base
      dsimp only
      rw [liftE_bind]
      rcases hcwk : cw pb (PAGE_HEADER_SIZE + ko) key with e | pbk
      · exact base
      dsimp only
      have hszk : pbk.size = PAGE_SIZE := by rw [cw_ok_size hcwk]; exact hpbsz
      rw [liftE_bind]
      rcases hsh : (if sr.1 < rU16 pb 10 + 1 then do
          let src ← sl pbk (PAGE_HEADER_SIZE + sr.1 * BRANCH_ELEMENT_SIZE)
            (PAGE_HEADER_SIZE + (rU16 pb 10 + 1) * BRANCH_ELEMENT_SIZE)
          cw pbk (PAGE_HEADER_SIZE + (sr.1 + 1) * BRANCH_ELEMENT_SIZE) src
        else (pure pbk : Except RErr Buf)) with e | pbm
      · rw [hsh]
        exact base
      rw [hsh]
      have hszm : pbm.size = PAGE_SIZE := by
        split at hsh
        · rcases hsl2 : sl pbk (PAGE_HEADER_SIZE + sr.1 * BRANCH_ELEMENT_SIZE)
              (PAGE_HEADER_SIZE + (rU16 pb 10 + 1) * BRANCH_ELEMENT_SIZE) with e2 | src
          · rw [hsl2, eBind_err] at hsh
            exact absurd hsh (by simp)
          · rw [hsl2, eBind_ok] at hsh
            rw [cw_ok_size hsh]
            exact hszk
        · rw [ePure] at hsh
          cases hsh
          exact hszk
      dsimp only
      rw [liftE_bind]
      rcases hcwe : cw pbm (PAGE_HEADER_SIZE + sr.1 * BRANCH_ELEMENT_SIZE)
          (bs (le64 cid ++ le16 key.size ++ le16 ko ++ le32 0)) with e | pbe
      · exact base
      dsimp only
      rw [liftE_bind]
      rcases hcwc : cw pbe 10 (bs (le16 (rU16 pb 10 + 1))) with e | pbf
      · exact base
      dsimp only
      rw [bindB_eq, setDirty_eq]
      dsimp only
      refine ⟨hmm1, le_of_eq hhi1.symm, ?_⟩
      refine inv_setDirty hInv1 hpid1 ?_ (fun hc => absurd hc hne) (fun hc => absurd hc hne)
      rw [cw_ok_size hcwc, cw_ok_size hcwe]
      exact hszm

/-- Equation for the successor case of insert_recursive. -/
theorem insertRecursive_succ (fuel pid : Nat) (key value : Buf) :
    insertRecursive (fuel + 1) pid key value = (do
      match ← getPageType pid with
      | .leaf => insertIntoLeaf pid key value
      | .branch => do
        let childPageId ← findChildPage pid key
        match ← insertRecursive fuel childPageId key value with
        | some (sepKey, newChildId) => insertIntoBranch pid sepKey newChildId
        | none => pure none
      | pt => throwB (.btree (.invalidPageType pid pt))) := rfl

/-- A page whose type byte decodes to branch cannot be page 2: the root
leaf page keeps type byte 3 both in the dirty buffer and in the mmap. -/
theorem getPageType_branch_ne2 {t : WriteTxn} {pid : Nat} (ht : Inv t)
    (h : (getPageType pid t).1 = .ok .branch) : pid ≠ 2 := by
  intro h2
  subst h2
  have hb : (getPageType 2 t) = ((getPageType 2 : BtM PageTy)) t := rfl
  unfold getPageType at h
  rw [bindB_eq] at h
  rcases hr : readPage 2 t with ⟨r, t1⟩
  rw [hr] at h
  cases r with
  | error e => cases h
  | ok pb =>
    have h8 : pb.get 8 = 3 := (readPage_ok_spec ht (by rw [hr])).2.2.2 rfl
    dsimp only at h
    split at h
    · cases h
    · rw [h8] at h
      cases h

/-- insert_recursive preserves the invariant at every fuel level: leaves
through the leaf lemma, branches through the child recursion and the
branch lemma, where the target of insert_into_branch decoded as a branch
page and hence is not page 2. -/
theorem pres_insertRecursive :
    ∀ (fuel pid : Nat) (key value : Buf), Pres (insertRecursive fuel pid key value) := by
  intro fuel
  induction fuel with
  | zero => intro pid key value t ht; exact ⟨rfl, le_refl _, ht⟩
  | succ fuel ih =>
    intro pid key value t ht
    rw [insertRecursive_succ, bindB_eq]
    rcases hg : getPageType pid t with ⟨r, t1⟩
    have ht1 : t1 = t := by have := stateId_getPageType pid t; rw [hg] at this; exact this
    rw [ht1]
    cases r with
    | error e => exact ⟨rfl, le_refl _, ht⟩
    | ok pt =>
      dsimp only
      cases pt with
      | meta => exact ⟨rfl, le_refl _, ht⟩
      | freeList => exact ⟨rfl, le_refl _, ht⟩
      | leaf => exact pres_insertIntoLeaf pid key value t ht
      | branch =>
        have hne : pid ≠ 2 := getPageType_branch_ne2 ht (by rw [hg, ht1])
        dsimp only
        rw [bindB_eq]
        rcases hf : findChildPage pid key t with ⟨rc, t2⟩
        have ht2 : t2 = t := by
          have := stateId_findChildPage pid key t; rw [hf] at this; exact this
        rw [ht2]
        cases rc with
        | error e => exact ⟨rfl, le_refl _, ht⟩
        | ok cid =>
          dsimp only
          rw [bindB_eq]
          have hrec := ih cid key value t ht
          rcases hr2 : insertRecursive fuel cid key value t with ⟨ro, t3⟩
          rw [hr2] at hrec
          cases ro with
          | error e => exact hrec
          | ok o =>
            dsimp only
            cases o with
            | none => exact hrec
            | some sk =>
              obtain ⟨sep, ncid⟩ := sk
              dsimp only
              have hib := pres_insertIntoBranch pid sep ncid hne t3 hrec.2.2
              exact ⟨hib.1.trans hrec.1, le_trans hrec.2.1 hib.2.1, hib.2.2⟩

/-- WriteTxn::insert preserves the invariant: the recursive insert does,
and a root split allocates its new root above page 2. -/
theorem pres_insertOp (fuel : Nat) (key value : Buf) : Pres (insertOp fuel key value) := by
  intro t ht
  unfold insertOp
  rw [bindB_eq, getTxn_eq]
  dsimp only
  rw [bindB_eq]
  have hrec := pres_insertRecursive fuel t.root_page_id key value t ht
  rcases hr : insertRecursive fuel t.root_page_id key value t with ⟨ro, t1⟩
  rw [hr] at hrec
  cases ro with
  | error e => exact hrec
  | ok o =>
    dsimp only
    cases o with
    | none => exact hrec
    | some sk =>
      obtain ⟨sep, npid⟩ := sk
      dsimp only
      have hsp := pres_splitRoot sep npid t1 hrec.2.2
      exact ⟨hsp.1.trans hrec.1, le_trans hrec.2.1 hsp.2.1, hsp.2.2⟩

theorem get_writeBytes_ge {i o : Nat} (d s : Buf) (h : o + s.size ≤ i) :
    (writeBytes d o s).get i = d.get i := by
  simp only [Buf.get, writeBytes]
  have : ¬ (o ≤ i ∧ i < o + s.size) := by omega
  simp only [this, if_false]
  split <;> simp [Buf.get]

/-- A well-formed database never takes the root-initialisation path. -/
theorem needsInit_false_of_wf {db : Db} (h : DbWf db) : needsInit db = false := by
  have h1 := h.1
  have h2 := h.2.2.1
  simp only [needsInit, Bool.or_eq_false_iff, decide_eq_false_iff_not, not_le, h2]
  refine ⟨by simp only [PAGE_SIZE] at h1 ⊢; omega, by decide⟩

/-- On a well-formed database, begin_write_transaction leaves the
database unchanged and produces a writer with empty dirty buffer and
free list over the current map and header, satisfying the transaction
invariant. -/
theorem beginWrite_of_wf {db : Db} (h : DbWf db) :
    beginWriteTransaction db = (db,
      { mmap := db.mmap, root_page_id := db.header.root_page_id, dirty_pages := [],
        free_list := [], highest_page_id := db.header.highest_page_id }) ∧
    Inv (beginWriteTransaction db).2 := by
  have hni : needsInit db = false := needsInit_false_of_wf h
  have h2le : 2 ≤ db.header.highest_page_id := by
    have h1 := h.1
    have h2 := h.2.1
    simp only [PAGE_SIZE] at h1 h2
    omega
  have heq : beginWriteTransaction db = (db,
      { mmap := db.mmap, root_page_id := db.header.root_page_id, dirty_pages := [],
        free_list := [], highest_page_id := db.header.highest_page_id }) := by
    unfold beginWriteTransaction
    rw [hni]
    rfl
  refine ⟨heq, ?_⟩
  rw [heq]
  exact ⟨fun p hp => absurd hp (List.not_mem_nil p),
    fun p hp => absurd hp (List.not_mem_nil p), rfl, h.2.1, h2le,
    fun p hp => absurd hp (List.not_mem_nil p),
    fun p hp => absurd hp (List.not_mem_nil p), h.2.2.1, h.2.2.2⟩

/-- Running any list of inserts preserves the transaction invariant,
never rebinds the snapshot and never decreases the allocator. -/
theorem inv_runInserts (fuel : Nat) :
    ∀ (ops : List (Buf × Buf)) (t : WriteTxn), Inv t →
    (runInserts fuel t ops).mmap = t.mmap ∧
    t.highest_page_id ≤ (runInserts fuel t ops).highest_page_id ∧
    Inv (runInserts fuel t ops) := by
  intro ops
  induction ops with
  | nil => intro t ht; exact ⟨rfl, le_refl _, ht⟩
  | cons kv rest ih =>
    intro t ht
    have hstep := pres_insertOp fuel kv.1 kv.2 t ht
    have hrec := ih (insertOp fuel kv.1 kv.2 t).2 hstep.2.2
    have hfold : runInserts fuel t (kv :: rest) =
        runInserts fuel (insertOp fuel kv.1 kv.2 t).2 rest := rfl
    rw [hfold]
    exact ⟨hrec.1.trans hstep.1, le_trans hstep.2.1 hrec.2.1, hrec.2.2⟩

/-- When every dirty page id is within the committed range and every
dirty buffer is page-sized, the guarded copy loop of commit_dirty_pages
takes the write branch at every step: it equals the unconditional copy
of every dirty page. -/
theorem ceBind_ok {α β : Type} (a : α) (f : α → Except CErr β) :
    (Except.ok a >>= f) = f a := rfl

theorem copyFold_writes_all :
    ∀ (dirty : List (Nat × Buf)) (m : Buf),
    (∀ p ∈ dirty, p.1 * PAGE_SIZE + PAGE_SIZE ≤ m.size) →
    (∀ p ∈ dirty, p.2.size = PAGE_SIZE) →
    dirty.foldlM commitCopyStep m = .ok (copyAll dirty m) := by
  intro dirty
  induction dirty with
  | nil => intro m _ _; rfl
  | cons p rest ih =>
    intro m hin hsz
    have hstep : (p :: rest).foldlM commitCopyStep m =
        commitCopyStep m p >>= fun m1 => rest.foldlM commitCopyStep m1 := rfl
    rw [hstep]
    have hcs : commitCopyStep m p = .ok (writeBytes m (p.1 * PAGE_SIZE) p.2) := by
      unfold commitCopyStep
      rw [if_pos (hin p (List.mem_cons_self p rest)),
        if_pos (hsz p (List.mem_cons_self p rest))]
    rw [hcs, ceBind_ok]
    have hsz1 : (writeBytes m (p.1 * PAGE_SIZE) p.2).size = m.size := writeBytes_size _ _ _
    exact ih (writeBytes m (p.1 * PAGE_SIZE) p.2)
      (fun q hq => by rw [hsz1]; exact hin q (List.mem_cons_of_mem p hq))
      (fun q hq => hsz q (List.mem_cons_of_mem p hq))

theorem copyAll_size : ∀ (dirty : List (Nat × Buf)) (m : Buf),
    (copyAll dirty m).size = m.size := by
  intro dirty
  induction dirty with
  | nil => intro m; rfl
  | cons p rest ih =>
    intro m
    have hfold : copyAll (p :: rest) m = copyAll rest (writeBytes m (p.1 * PAGE_SIZE) p.2) := rfl
    rw [hfold, ih, writeBytes_size]

/-- The unconditional copy keeps the id and type bytes of page 2: a
dirty image of page 2 carries them itself, and any other page writes a
disjoint range. -/
theorem copyAll_page2 : ∀ (dirty : List (Nat × Buf)) (m : Buf),
    (∀ p ∈ dirty, p.2.size = PAGE_SIZE) →
    (∀ p ∈ dirty, p.1 = 2 → p.2.get 0 = 2 ∧ p.2.get 8 = 3) →
    2 * PAGE_SIZE + PAGE_HEADER_SIZE ≤ m.size →
    (m.get (2 * PAGE_SIZE) = 2 → (copyAll dirty m).get (2 * PAGE_SIZE) = 2) ∧
    (m.get (2 * PAGE_SIZE + 8) = 3 → (copyAll dirty m).get (2 * PAGE_SIZE + 8) = 3) := by
  intro dirty
  induction dirty with
  | nil => intro m _ _ _; exact ⟨id, id⟩
  | cons p rest ih =>
    intro m hsz h2 hm
    have hfold : copyAll (p :: rest) m = copyAll rest (writeBytes m (p.1 * PAGE_SIZE) p.2) := rfl
    have hpsz : p.2.size = PAGE_SIZE := hsz p (List.mem_cons_self p rest)
    have hm1 : 2 * PAGE_SIZE + PAGE_HEADER_SIZE ≤ (writeBytes m (p.1 * PAGE_SIZE) p.2).size := by
      rw [writeBytes_size]; exact hm
    have hrec := ih (writeBytes m (p.1 * PAGE_SIZE) p.2)
      (fun q hq => hsz q (List.mem_cons_of_mem p hq))
      (fun q hq => h2 q (List.mem_cons_of_mem p hq)) hm1
    rw [hfold]
    by_cases hp2 : p.1 = 2
    · obtain ⟨hb0, hb8⟩ := h2 p (List.mem_cons_self p rest) hp2
      rw [hp2] at hrec ⊢
      constructor
      · intro _
        refine hrec.1 ?_
        rw [get_writeBytes_in (le_refl _)
          (by rw [hpsz]; simp only [PAGE_SIZE]; omega)
          (by simp only [PAGE_SIZE, PAGE_HEADER_SIZE] at hm ⊢; omega)]
        simpa using hb0
      · intro _
        refine hrec.2 ?_
        rw [get_writeBytes_in (by omega)
          (by rw [hpsz]; simp only [PAGE_SIZE]; omega)
          (by simp only [PAGE_SIZE, PAGE_HEADER_SIZE] at hm ⊢; omega)]
        have : 2 * PAGE_SIZE + 8 - 2 * PAGE_SIZE = 8 := by omega
        rw [this]
        exact hb8
    · have hdisc : ∀ i, 2 * PAGE_SIZE ≤ i → i < 2 * PAGE_SIZE + PAGE_HEADER_SIZE →
          (writeBytes m (p.1 * PAGE_SIZE) p.2).get i = m.get i := by
        intro i hi1 hi2
        rcases Nat.lt_or_ge p.1 2 with hlt | hge
        · exact get_writeBytes_ge _ _ (by
            rw [hpsz]; simp only [PAGE_SIZE] at hi1 ⊢
            have : p.1 ≤ 1 := by omega
            calc p.1 * 4096 + 4096 ≤ 1 * 4096 + 4096 := by
                  have := Nat.mul_le_mul_right 4096 this
                  omega
            _ ≤ i := by omega)
        · have hgt : 3 ≤ p.1 := by omega
          exact get_writeBytes_lt _ _ (by
            simp only [PAGE_SIZE, PAGE_HEADER_SIZE] at hi2 ⊢
            have : 3 * 4096 ≤ p.1 * 4096 := Nat.mul_le_mul_right 4096 hgt
            omega)
      constructor
      · intro hbase
        refine hrec.1 ?_
        rw [hdisc (2 * PAGE_SIZE) (le_refl _) (by simp only [PAGE_HEADER_SIZE]; omega)]
        exact hbase
      · intro hbase
        refine hrec.2 ?_
        rw [hdisc (2 * PAGE_SIZE + 8) (by omega) (by simp only [PAGE_HEADER_SIZE]; omega)]
        exact hbase

theorem growTo_size (m : Buf) (n : Nat) : (growTo m n).size = m.size + (n - m.size) := rfl

theorem growTo_get {m : Buf} {i : Nat} (n : Nat) (h : i < m.size) :
    (growTo m n).get i = m.get i := by
  have hlt : i < m.size + (n - m.size) := by omega
  show (if i < m.size + (n - m.size) then
      (if i < m.size then m.get i else (Buf.repl (n - m.size) 0).get (i - m.size)) else 0)
    = m.get i
  rw [if_pos hlt, if_pos h]

theorem headerBytes_size (h : Header) : (bs (headerBytes h)).size = HEADER_SIZE := by
  simp [bs, headerBytes, le32, le64, HEADER_SIZE]

/-- Full characterisation of the write phase of commit_dirty_pages on a
state where every dirty page fits the map: the copy loop writes every
page, the header is advanced with tx_id + 1, and the id and type bytes
of page 2 survive into the new map. -/
theorem commitWrites_ok_spec {db : Db} {m : Buf} {d : List (Nat × Buf)} {nh nr : Nat}
    (hsz : ∀ p ∈ d, p.2.size = PAGE_SIZE)
    (hin : ∀ p ∈ d, p.1 * PAGE_SIZE + PAGE_SIZE ≤ m.size)
    (h2 : ∀ p ∈ d, p.1 = 2 → p.2.get 0 = 2 ∧ p.2.get 8 = 3)
    (hm3 : 3 * PAGE_SIZE ≤ m.size)
    (hid : m.get (2 * PAGE_SIZE) = 2) (hty : m.get (2 * PAGE_SIZE + 8) = 3) :
    commitWrites db m d nh nr false =
      (.ok (), Db.mk (writeBytes (copyAll d m) 0 (bs (headerBytes
          (advanceHeader db.header nh nr))))
        (advanceHeader db.header nh nr)) ∧
    (commitWrites db m d nh nr false).2.mmap.size = m.size ∧
    (commitWrites db m d nh nr false).2.mmap.get (2 * PAGE_SIZE) = 2 ∧
    (commitWrites db m d nh nr false).2.mmap.get (2 * PAGE_SIZE + 8) = 3 := by
  have hhdr : HEADER_SIZE ≤ (copyAll d m).size := by
    rw [copyAll_size]
    simp only [HEADER_SIZE, PAGE_SIZE] at hm3 ⊢
    omega
  have heq : commitWrites db m d nh nr false =
      (.ok (), Db.mk (writeBytes (copyAll d m) 0 (bs (headerBytes
          (advanceHeader db.header nh nr))))
        (advanceHeader db.header nh nr)) := by
    unfold commitWrites
    rw [copyFold_writes_all d m hin hsz]
    dsimp only
    rw [if_pos hhdr]
    rfl
  have hp2 := copyAll_page2 d m hsz h2
    (by simp only [PAGE_SIZE, PAGE_HEADER_SIZE] at hm3 ⊢; omega)
  refine ⟨heq, ?_, ?_, ?_⟩
  · rw [heq, writeBytes_size, copyAll_size]
  · rw [heq]
    show (writeBytes (copyAll d m) 0 _).get (2 * PAGE_SIZE) = 2
    rw [get_writeBytes_ge _ _ (by
      rw [headerBytes_size]
      simp only [HEADER_SIZE, PAGE_SIZE]
      omega)]
    exact hp2.1 hid
  · rw [heq]
    show (writeBytes (copyAll d m) 0 _).get (2 * PAGE_SIZE + 8) = 3
    rw [get_writeBytes_ge _ _ (by
      rw [headerBytes_size]
      simp only [HEADER_SIZE, PAGE_SIZE]
      omega)]
    exact hp2.2 hty

/-- Header fields after any successful commitWrites: highest and root
are the arguments and tx_id advances by one. -/
theorem commitWrites_ok_fields {db : Db} {m : Buf} {d : List (Nat × Buf)} {nh nr : Nat}
    {ff : Bool} {r : Db} (h : commitWrites db m d nh nr ff = (.ok (), r)) :
    r.header.highest_page_id = nh ∧ r.header.root_page_id = nr ∧
    r.header.tx_id = db.header.tx_id + 1 := by
  unfold commitWrites at h
  rcases hc : d.foldlM commitCopyStep m with e | m1 <;> rw [hc] at h
  · simp at h
  · dsimp only at h
    split at h
    · split at h
      · simp at h
      · injection h with h1 h2
        subst h2
        exact ⟨rfl, rfl, rfl⟩
    · simp at h

/-- One full write session on a well-formed database: the committed
result is again well-formed, tx_id advances by exactly one, and
highest_page_id never decreases. -/
theorem sessionStep_spec (fuel : Nat) (db : Db) (ops : List (Buf × Buf)) (hwf : DbWf db) :
    DbWf (sessionStep fuel db ops) ∧
    (sessionStep fuel db ops).header.tx_id = db.header.tx_id + 1 ∧
    db.header.highest_page_id ≤ (sessionStep fuel db ops).header.highest_page_id := by
  have hbw := beginWrite_of_wf hwf
  have hrun := inv_runInserts fuel ops (beginWriteTransaction db).2 hbw.2
  set tf := runInserts fuel (beginWriteTransaction db).2 ops with htf
  have hinv : Inv tf := hrun.2.2
  have hmm : tf.mmap = db.mmap := by rw [htf, hrun.1, hbw.1]
  have hhi0 : db.header.highest_page_id ≤ tf.highest_page_id := by
    have h := hrun.2.1
    rw [hbw.1] at h
    exact h
  have hszb : db.mmap.size ≤ (tf.highest_page_id + 1) * PAGE_SIZE := by
    have h := hinv.szBound
    rw [hmm] at h
    exact h
  have hdb1 : (beginWriteTransaction db).1 = db := by rw [hbw.1]
  have hsession : sessionStep fuel db ops =
      (commitDirtyPages db tf.dirty_pages tf.highest_page_id tf.root_page_id false false).2 := by
    unfold sessionStep dbCommit prepareCommit
    rw [hdb1, ← htf]
  rw [hsession]
  have key : ∀ m1 : Buf,
      3 * PAGE_SIZE ≤ m1.size →
      (tf.highest_page_id + 1) * PAGE_SIZE ≤ m1.size →
      m1.size ≤ (tf.highest_page_id + 1) * PAGE_SIZE →
      m1.get (2 * PAGE_SIZE) = 2 → m1.get (2 * PAGE_SIZE + 8) = 3 →
      DbWf (commitWrites db m1 tf.dirty_pages tf.highest_page_id tf.root_page_id false).2 ∧
      (commitWrites db m1 tf.dirty_pages tf.highest_page_id tf.root_page_id
        false).2.header.tx_id = db.header.tx_id + 1 ∧
      db.header.highest_page_id ≤ (commitWrites db m1 tf.dirty_pages tf.highest_page_id
        tf.root_page_id false).2.header.highest_page_id := by
    intro m1 h3 hlb hub hgid hgty
    have hin : ∀ p ∈ tf.dirty_pages, p.1 * PAGE_SIZE + PAGE_SIZE ≤ m1.size := by
      intro p hp
      have h1 := hinv.dirtyLe p hp
      have h2 : (p.1 + 1) * PAGE_SIZE ≤ (tf.highest_page_id + 1) * PAGE_SIZE :=
        Nat.mul_le_mul_right PAGE_SIZE (by omega)
      calc p.1 * PAGE_SIZE + PAGE_SIZE = (p.1 + 1) * PAGE_SIZE := by ring
      _ ≤ (tf.highest_page_id + 1) * PAGE_SIZE := h2
      _ ≤ m1.size := hlb
    have h2b : ∀ p ∈ tf.dirty_pages, p.1 = 2 → p.2.get 0 = 2 ∧ p.2.get 8 = 3 :=
      fun p hp hp2 => ⟨hinv.page2Id p hp hp2, hinv.page2Ty p hp hp2⟩
    have hspec := @commitWrites_ok_spec db _ _ tf.highest_page_id
      tf.root_page_id hinv.dirtySz hin h2b h3 hgid hgty
    have hh : (commitWrites db m1 tf.dirty_pages tf.highest_page_id tf.root_page_id
        false).2.header = advanceHeader db.header tf.highest_page_id tf.root_page_id := by
      rw [hspec.1]
    refine ⟨⟨?_, ?_, hspec.2.2.1, hspec.2.2.2⟩, ?_, ?_⟩
    · rw [hspec.2.1]
      exact h3
    · rw [hspec.2.1, hh]
      exact hub
    · rw [hh]
      rfl
    · rw [hh]
      exact hhi0
  unfold commitDirtyPages
  dsimp only
  split
  · rename_i hreq
    rw [if_neg Bool.false_ne_true]
    have hglt : 2 * PAGE_SIZE + 8 < db.mmap.size := by
      have := hwf.1
      simp only [PAGE_SIZE] at this ⊢
      omega
    have hgsz : (growTo db.mmap ((tf.highest_page_id + 1) * PAGE_SIZE)).size =
        (tf.highest_page_id + 1) * PAGE_SIZE := by
      rw [growTo_size]
      omega
    refine key _ ?_ ?_ ?_ ?_ ?_
    · rw [hgsz]
      have h2le := hinv.hi2
      have : 3 * PAGE_SIZE ≤ (tf.highest_page_id + 1) * PAGE_SIZE :=
        Nat.mul_le_mul_right PAGE_SIZE (by omega)
      exact this
    · rw [hgsz]
    · rw [hgsz]
    · rw [growTo_get _ (by omega)]
      exact hwf.2.2.1
    · rw [growTo_get _ hglt]
      exact hwf.2.2.2
  · rename_i hreq
    push_neg at hreq
    exact key db.mmap hwf.1 hreq hszb hwf.2.2.1 hwf.2.2.2

/-- C10: on a well-formed database, every page id in the dirty buffer of
the triple surrendered by prepare_commit after any sequence of inserts
is at most the transaction highest_page_id (pages touched in place came
from the snapshot range, allocate_page bumps highest before returning);
consequently, on any map of at least highest + 1 pages — which
commit_dirty_pages guarantees by growing the file to that size — the
bounds guard of the copy loop passes at every step, so the loop equals
the unconditional copy of every dirty page and never silently skips
one. -/
theorem c10_dirty_ids_bounded_commit_skips_none
    (db : Db) (fuel : Nat) (ops : List (Buf × Buf)) (hwf : DbWf db) :
    (∀ p ∈ (prepareCommit (txnAfter fuel db ops)).1,
      p.1 ≤ (prepareCommit (txnAfter fuel db ops)).2.1) ∧
    (∀ m : Buf,
      ((prepareCommit (txnAfter fuel db ops)).2.1 + 1) * PAGE_SIZE ≤ m.size →
      (prepareCommit (txnAfter fuel db ops)).1.foldlM commitCopyStep m =
        .ok (copyAll (prepareCommit (txnAfter fuel db ops)).1 m)) := by
  have hbw := beginWrite_of_wf hwf
  have hinv : Inv (txnAfter fuel db ops) :=
    (inv_runInserts fuel ops (beginWriteTransaction db).2 hbw.2).2.2
  constructor
  · intro p hp
    exact hinv.dirtyLe p hp
  · intro m hm
    refine copyFold_writes_all _ m ?_ (fun p hp => hinv.dirtySz p hp)
    intro p hp
    have h1 : p.1 ≤ (txnAfter fuel db ops).highest_page_id := hinv.dirtyLe p hp
    calc p.1 * PAGE_SIZE + PAGE_SIZE = (p.1 + 1) * PAGE_SIZE := by ring
    _ ≤ ((txnAfter fuel db ops).highest_page_id + 1) * PAGE_SIZE :=
      Nat.mul_le_mul_right PAGE_SIZE (by omega)
    _ ≤ m.size := hm

theorem c10_witness :
    DbWf initializedDb ∧
    ((∀ p ∈ (prepareCommit (txnAfter 9 initializedDb [(bs [1], bs [2])])).1,
      p.1 ≤ (prepareCommit (txnAfter 9 initializedDb [(bs [1], bs [2])])).2.1) ∧
    (∀ m : Buf,
      ((prepareCommit (txnAfter 9 initializedDb [(bs [1], bs [2])])).2.1 + 1) * PAGE_SIZE
        ≤ m.size →
      (prepareCommit (txnAfter 9 initializedDb [(bs [1], bs [2])])).1.foldlM commitCopyStep m =
        .ok (copyAll (prepareCommit (txnAfter 9 initializedDb [(bs [1], bs [2])])).1 m))) :=
  ⟨by unfold DbWf; decide,
   c10_dirty_ids_bounded_commit_skips_none initializedDb 9 [(bs [1], bs [2])]
     (by unfold DbWf; decide)⟩

/-- C8: a successful commit_dirty_pages(dirty, new_highest, new_root)
sets header.highest_page_id to new_highest, header.root_page_id to
new_root and advances header.tx_id by exactly one; and over any sequence
of sessions — each beginning a write transaction on the then-current
state, running inserts, and committing the prepare_commit triple — the
observed headers have strictly increasing tx_id (by exactly one per
commit) and non-decreasing highest_page_id. -/
theorem c8_commit_header_fields_and_monotonicity :
    (∀ (db : Db) (d : List (Nat × Buf)) (nh nr : Nat) (gf ff : Bool) (r : Db),
      commitDirtyPages db d nh nr gf ff = (.ok (), r) →
      r.header.highest_page_id = nh ∧ r.header.root_page_id = nr ∧
      r.header.tx_id = db.header.tx_id + 1) ∧
    (∀ (fuel : Nat) (db : Db) (sessions : List (List (Buf × Buf))), DbWf db →
      (headerTrace fuel db sessions).Chain'
        (fun a b => b.tx_id = a.tx_id + 1 ∧ a.highest_page_id ≤ b.highest_page_id)) := by
  constructor
  · intro db d nh nr gf ff r h
    unfold commitDirtyPages at h
    dsimp only at h
    split at h
    · split at h
      · simp at h
      · exact commitWrites_ok_fields h
    · exact commitWrites_ok_fields h
  · intro fuel db sessions
    induction sessions generalizing db with
    | nil => intro _; exact List.chain'_singleton _
    | cons ops rest ih =>
      intro hwf
      have hs := sessionStep_spec fuel db ops hwf
      have htail := ih (sessionStep fuel db ops) hs.1
      have hstep : headerTrace fuel db (ops :: rest) =
          db.header :: headerTrace fuel (sessionStep fuel db ops) rest := rfl
      rw [hstep]
      refine List.chain'_cons'.mpr ⟨?_, htail⟩
      intro b hb
      have hhead : (headerTrace fuel (sessionStep fuel db ops) rest).head? =
          some (sessionStep fuel db ops).header := by
        cases rest <;> rfl
      rw [hhead] at hb
      cases hb
      exact ⟨hs.2.1, hs.2.2⟩

theorem c8_witness :
    ((commitDirtyPages initializedDb [] 2 2 false false).2.header.highest_page_id = 2 ∧
     (commitDirtyPages initializedDb [] 2 2 false false).2.header.root_page_id = 2 ∧
     (commitDirtyPages initializedDb [] 2 2 false false).2.header.tx_id =
       initializedDb.header.tx_id + 1) ∧
    (headerTrace 9 initializedDb [[(bs [1], bs [2])], []]).Chain'
      (fun a b => b.tx_id = a.tx_id + 1 ∧ a.highest_page_id ≤ b.highest_page_id) :=
  ⟨c8_commit_header_fields_and_monotonicity.1 initializedDb [] 2 2 false false _
    (by
      have h1 : (commitDirtyPages initializedDb [] 2 2 false false).1 = .ok () := by decide
      have h2 : ((commitDirtyPages initializedDb [] 2 2 false false).1,
          (commitDirtyPages initializedDb [] 2 2 false false).2) =
          commitDirtyPages initializedDb [] 2 2 false false := Prod.mk.eta
      rw [h1] at h2
      exact h2.symm),
   c8_commit_header_fields_and_monotonicity.2 9 initializedDb [[(bs [1], bs [2])], []]
     (by unfold DbWf; decide)⟩

/-! ## Concrete claim theorems -/

/-- C1: refuted on the code.  In a single write transaction the inserts
(0x01, big), (0x02, 0x09), (0x03, _), (0x04, _), (0x02, 0x05 x6) all
return Ok and the commit succeeds, yet the committed read of key 0x02
returns the overwritten value 0x09 instead of the value of the last
insert (the update-split duplicates the key, and the read finds the
stale copy). -/
theorem c1_point_read_returns_stale_value :
    runState.1 = true ∧
    commitRun.1 = .ok () ∧
    obsGet runGetK2 = .ok (some [9]) ∧
    obsGet runGetK2 ≠ .ok (some [5, 5, 5, 5, 5, 5]) := by
  refine ⟨by decide, by decide, by decide, by decide⟩

/-- C2: refuted on the code.  Key 0x02 is inserted twice (values 0x09,
then 0x05 x6); the second insert lands on a leaf whose capacity check
fails, the leaf split is taken, and the committed get returns the first
value, not the final one. -/
theorem c2_last_write_wins_fails_after_update_split :
    runState.1 = true ∧
    commitRun.1 = .ok () ∧
    obsGet runGetK2 ≠ .ok (some [5, 5, 5, 5, 5, 5]) ∧
    obsGet runGetK2 = .ok (some [9]) := by
  refine ⟨by decide, by decide, by decide, by decide⟩

/-- C3: refuted on the code.  After the update-split run, page 2 is the
leaf the read path reaches for key 0x02 (the root branch resolves key
0x02 to child page 2), and its keys in directory order are
0x01, 0x02, 0x02: not strictly increasing. -/
theorem c3_leaf_keys_not_strictly_increasing :
    runState.1 = true ∧
    commitRun.1 = .ok () ∧
    rtFindChildInBranch (beginReadTransaction committedDb)
      committedDb.header.root_page_id (bs [2]) = .ok 2 ∧
    leafKeyList committedPage2 = [[1], [2], [2]] ∧
    ¬ StrictlyIncreasing (leafKeyList committedPage2) := by
  have hk : leafKeyList committedPage2 = [[1], [2], [2]] := by decide
  refine ⟨by decide, by decide, by decide, hk, ?_⟩
  rw [hk]
  intro h
  simp only [StrictlyIncreasing, List.chain'_cons, List.chain'_singleton, and_true] at h
  exact absurd h.2 (by decide)

/-- C4: refuted on the code.  Inserting a 3000-byte key with a
3000-byte value (both within the 65535 limit) into the empty root leaf
panics: key_offset = min_kptr - (key.len + value.len) = 4080 - 6000
underflows, instead of returning Ok or a BTreeError. -/
theorem c4_insert_panics_on_large_pair :
    (insertOp 10 (Buf.repl 3000 1) (Buf.repl 3000 2) txn0).1 = .error .panic ∧
    (Buf.repl 3000 1).size ≤ U16_MAX ∧ (Buf.repl 3000 2).size ≤ U16_MAX := by
  refine ⟨by decide, by decide, by decide⟩

/-- C6: refuted on the code.  An insert into a leaf holding n = 0 pairs
that fails the capacity check (key 4000 bytes, value 73 bytes: key
offset 7 is below the 8-byte directory) takes the split path; the merged
sequence has length 1, split_idx = 1, and reading kvs[split_idx] panics
instead of returning Some(separator, new page). -/
theorem c6_split_of_singleton_merge_panics :
    obsSplitRes (insertIntoLeaf 2 (Buf.repl 4000 1) (Buf.repl 73 2) txn0).1 = .error .panic ∧
    rU16 ((txn0.mmap.take (3 * PAGE_SIZE)).drop (2 * PAGE_SIZE)) 10 = 0 ∧
    (Buf.repl 4000 1).size ≤ U16_MAX ∧ (Buf.repl 73 2).size ≤ U16_MAX := by
  refine ⟨by decide, by decide, by decide, by decide⟩

set_option maxHeartbeats 4000000 in
/-- C7: refuted on the code.  Splitting a full branch page (one 50-byte
separator sC7 with body-relative kptr 130, which decodes correctly on
the original page) returns Some((new separator, 7)) as described, but
the freshly written right page does not retain the original separator:
write_branch_page stores the whole-page payload cursor in kptr while
readers interpret it relative to the page body, so element 1 of page 7
decodes to a 16-byte-shifted string, not sC7. -/
theorem c7_branch_split_corrupts_separators :
    obsSplitRes resC7.1 = .ok (some (newSepC7.toList, 7)) ∧
    branchSepList branchC7 1 = some sC7.toList ∧
    (match rightPageC7 with
      | some pg => branchSepList pg 1
      | none => none) =
      some (List.replicate 34 2 ++ List.replicate 16 0) ∧
    some (List.replicate 34 2 ++ List.replicate 16 0) ≠ some sC7.toList := by
  refine ⟨by decide, by decide, by decide, by decide⟩

/-- C5, counterexample: a commit whose final flush fails returns an
error, yet the header has already advanced (tx_id incremented, root
moved from 0 to 2) and the dirty page contents are visible to a read
transaction begun afterwards. -/
theorem c5_flush_failure_leaves_new_state :
    c5Res.1 = .error (.db .io) ∧
    c5Res.2.header.tx_id = dbOpenEmpty.header.tx_id + 1 ∧
    c5Res.2.header.root_page_id = 2 ∧
    dbOpenEmpty.header.root_page_id = 0 ∧
    (beginReadTransaction c5Res.2).mmap.get (2 * PAGE_SIZE) = 7 := by
  refine ⟨by decide, by decide, by decide, by decide, by decide⟩

/-- C5, amended: when commit_dirty_pages fails in the initial grow and
re-map step (the only failure point before any page is copied), the
database state is returned unchanged, so the previous committed state
is preserved. -/
theorem c5_grow_step_error_preserves_state :
    ∀ (db : Db) (dirty : List (Nat × Buf)) (nh nr : Nat) (ff : Bool),
      (nh + 1) * PAGE_SIZE > db.mmap.size →
      commitDirtyPages db dirty nh nr true ff = (.error (.db .io), db) := by
  intro db dirty nh nr ff h
  unfold commitDirtyPages
  rw [if_pos h]
  rfl

/-- Witness for the amended C5 at a concrete input. -/
theorem c5_grow_step_error_preserves_state_witness :
    (4 + 1) * PAGE_SIZE > dbOpenEmpty.mmap.size ∧
    commitDirtyPages dbOpenEmpty [] 4 2 true false = (.error (.db .io), dbOpenEmpty) :=
  ⟨by decide, c5_grow_step_error_preserves_state dbOpenEmpty [] 4 2 false (by decide)⟩

end RBolt
